import Mathlib

/-!
Verification of the CVD synthesis-prediction platform's core pipeline:
parameter validation, prediction submission (the source contains two
variants of the `CVDPlatform` component, called V1 and V2 below), the
cookie-persisted history store, and the view projector.

JavaScript values are modelled as follows:
* strings are `List Char`;
* numbers are `JSNum`: an exact decimal `m / 10 ^ e` (every IEEE-754
  double is such a decimal; `parseFloat`/`parseInt` inputs and
  `JSON.stringify` outputs are decimal strings), or `NaN`, or an infinity;
* the browser cookie jar's single relevant slot is an `Option (List Char)`;
  assigning `document.cookie = "name=value;expires=..."` stores the value
  only up to the first `';'` (everything after it is read as attributes),
  and the app's `setCookie` does not encode the value;
* `JSON.parse` is an executable recursive-descent parser over `List Char`
  producing a `Json` value (exact decimal numbers, no exponent loss);
  `JSON.stringify` is an executable renderer.
-/

namespace CVD

/-- JS strings, modelled as character lists. -/
abbrev Str := List Char

/-- The character content of a Lean string literal. -/
def chars (s : String) : Str := s.data

/-- A JavaScript number: the exact decimal `m / 10 ^ e`, `NaN`, or an
infinity. Every IEEE-754 double is exactly representable as a finite
decimal, so `finite` covers all ordinary doubles. -/
inductive JSNum where
  | finite (m : Int) (e : Nat)
  | nan
  | posInf
  | negInf
deriving DecidableEq

/-- The JS comparison `value <= 0`: `NaN <= 0` and `Infinity <= 0` are
`false`; `-Infinity <= 0` is `true`; a finite decimal `m / 10 ^ e` is
`<= 0` iff `m <= 0`. -/
def JSNum.jsLeZero : JSNum → Bool
  | .finite m _ => decide (m ≤ 0)
  | .nan => false
  | .posInf => false
  | .negInf => true

/-- The JS predicate `isNaN(value)` on a number. -/
def JSNum.jsIsNaN : JSNum → Bool
  | .nan => true
  | _ => false

/-- Finiteness of a JS number (`Number.isFinite`): false exactly on `NaN`
and the infinities. -/
def JSNum.jsFinite : JSNum → Bool
  | .finite _ _ => true
  | _ => false

/-- The `PredictionParams` interface of variant V1 (fields in declaration
order). Variant V2 is identical up to field names (`wSRatio`,
`wTemperature`, `sTemperature` for the ratio and temperatures). -/
structure PredictionParams where
  substrateType : Str
  metalChalcogenRatio : JSNum
  hArRatio : JSNum
  pressureType : Str
  metalTemperature : JSNum
  chalcogenTemperature : JSNum
  substratePosition : Str
  reactionTime : JSNum
  saltAddition : Str
deriving DecidableEq

/-- The `PredictionRecord` interface (identical in both variants). -/
structure PredictionRecord where
  id : Str
  material : Str
  params : PredictionParams
  prediction : Str
  timestamp : Str
  remarks : Option Str
deriving DecidableEq

/-! ### String constants of the source -/

/-- Field name `id`. -/
def fId : Str := chars "id"

/-- Field name `material`. -/
def fMaterial : Str := chars "material"

/-- Field name `params`. -/
def fParams : Str := chars "params"

/-- Field name `prediction`. -/
def fPrediction : Str := chars "prediction"

/-- Field name `timestamp`. -/
def fTimestamp : Str := chars "timestamp"

/-- Field name `remarks`. -/
def fRemarks : Str := chars "remarks"

/-- Field name `substrateType`. -/
def fSubstrateType : Str := chars "substrateType"

/-- Field name `metalChalcogenRatio`. -/
def fMetalChalcogenRatio : Str := chars "metalChalcogenRatio"

/-- Field name `hArRatio`. -/
def fHArRatio : Str := chars "hArRatio"

/-- Field name `pressureType`. -/
def fPressureType : Str := chars "pressureType"

/-- Field name `metalTemperature`. -/
def fMetalTemperature : Str := chars "metalTemperature"

/-- Field name `chalcogenTemperature`. -/
def fChalcogenTemperature : Str := chars "chalcogenTemperature"

/-- Field name `substratePosition`. -/
def fSubstratePosition : Str := chars "substratePosition"

/-- Field name `reactionTime`. -/
def fReactionTime : Str := chars "reactionTime"

/-- Field name `saltAddition`. -/
def fSaltAddition : Str := chars "saltAddition"

/-- UI material value `ws2`. -/
def mWs2 : Str := chars "ws2"

/-- UI material value `mos2`. -/
def mMos2 : Str := chars "mos2"

/-- UI material value `wse2`. -/
def mWse2 : Str := chars "wse2"

/-- UI material value `mose2`. -/
def mMose2 : Str := chars "mose2"

/-- Remote endpoint material code `WSe2`. -/
def codeWSe2 : Str := chars "WSe2"

/-- Remote endpoint material code `MoS2`. -/
def codeMoS2 : Str := chars "MoS2"

/-- Remote endpoint material code `MoSe2`. -/
def codeMoSe2 : Str := chars "MoSe2"

/-- Outcome label `excellent`. -/
def labelExcellent : Str := chars "excellent"

/-- Outcome label `qualified`. -/
def labelQualified : Str := chars "qualified"

/-- Outcome label `no yield` (the spec writes it `no-yield`). -/
def labelNoYield : Str := chars "no yield"

/-! ### Notifications (the `toast` collaborator) -/

/-- Toast severity: the source passes `variant: "destructive"` for blocking
errors and omits the variant (normal styling) otherwise. -/
inductive ToastVariant where
  | normal
  | destructive
deriving DecidableEq

/-- A call to the `toast` notification collaborator. -/
structure Toast where
  title : Str
  description : Str
  variant : ToastVariant
deriving DecidableEq

/-! ### Decimal digits of a `Nat` (for `Date.now().toString()` and
`JSON.stringify` of numbers) -/

/-- The character for the decimal digit `d < 10`. -/
def digitChar (d : Nat) : Char := Char.ofNat (48 + d)

/-- The numeric value of a digit character. -/
def digitVal (c : Char) : Nat := c.toNat - 48

/-- Decimal-digit character test (codes 48–57). -/
def isDigitChar (c : Char) : Bool := decide (48 ≤ c.toNat ∧ c.toNat ≤ 57)

/-- Digits of `n`, most significant first, in front of `acc`; structural
on a fuel bound (any fuel above `n` is enough, since `n / 10` shrinks). -/
def natToCharsFuel : Nat → Nat → List Char → List Char
  | 0, _, acc => acc
  | fuel + 1, n, acc =>
    if n < 10 then digitChar n :: acc
    else natToCharsFuel fuel (n / 10) (digitChar (n % 10) :: acc)

/-- `n.toString()` for a natural number: its decimal digits. -/
def natToChars (n : Nat) : Str := natToCharsFuel (n + 1) n []

/-- The number a digit string denotes (most significant digit first). -/
def charsToNat (ds : Str) : Nat := ds.foldl (fun a c => 10 * a + digitVal c) 0

/-! ### The JSON data model (`JSON.parse` results) -/

/-- A JSON value as produced by `JSON.parse`. Numbers are kept as exact
decimals `m / 10 ^ e` (the form `JSON.stringify` emits). -/
inductive Json where
  | null
  | bool (b : Bool)
  | num (m : Int) (e : Nat)
  | str (s : Str)
  | arr (elems : List Json)
  | obj (members : List (Str × Json))

/-! ### `JSON.stringify`, as an executable renderer -/

/-- Digits of `n`, left-padded with `'0'` to length at least `k`. -/
def paddedDigits (n k : Nat) : Str :=
  List.replicate (k - (natToChars n).length) '0' ++ natToChars n

/-- `JSON.stringify` of the finite decimal `m / 10 ^ e`: sign, integer
digits, and — when `e > 0` — a point followed by exactly `e` fractional
digits. (JS prints huge/tiny magnitudes in exponent form instead; the
values arising here are ordinary, and either form is exact.) -/
def renderDec (m : Int) (e : Nat) : Str :=
  (if m < 0 then ['-'] else []) ++
  (paddedDigits m.natAbs (e + 1)).take ((paddedDigits m.natAbs (e + 1)).length - e) ++
  (if e = 0 then [] else
    '.' :: (paddedDigits m.natAbs (e + 1)).drop ((paddedDigits m.natAbs (e + 1)).length - e))

/-- Lower-case hexadecimal digit character for `n < 16`. -/
def hexDigitChar (n : Nat) : Char :=
  if n < 10 then digitChar n else Char.ofNat (87 + n)

/-- `JSON.stringify`'s escaping of a single character: `\"` and `\\`, the
short escapes for backspace, tab, newline, form feed and carriage return,
`\u00XX` for the remaining control characters, and everything else
verbatim. No output of this function contains `';'`. -/
def escapeChar (c : Char) : List Char :=
  if c = '"' then ['\\', '"']
  else if c = '\\' then ['\\', '\\']
  else if c = Char.ofNat 8 then ['\\', 'b']
  else if c = Char.ofNat 9 then ['\\', 't']
  else if c = Char.ofNat 10 then ['\\', 'n']
  else if c = Char.ofNat 12 then ['\\', 'f']
  else if c = Char.ofNat 13 then ['\\', 'r']
  else if c.toNat < 32 then
    ['\\', 'u', '0', '0', hexDigitChar (c.toNat / 16), hexDigitChar (c.toNat % 16)]
  else [c]

/-- `JSON.stringify` of a string: quoted, characters escaped. -/
def renderJStr (s : Str) : Str := '"' :: (s.flatMap escapeChar ++ ['"'])

/-- `JSON.stringify` of one JS number position: a finite decimal renders
as its digits, while `NaN` and the infinities render as `null`. -/
def renderJSNum : JSNum → Str
  | .finite m e => renderDec m e
  | _ => ['n', 'u', 'l', 'l']

/-! ### The JSON image of the app's data

`JSON.stringify(history)` serializes the record list; these definitions
give the `Json` value each app datum denotes, with the keys in the object
literals' insertion order from the source. -/

/-- `JSON.stringify` maps `NaN` and the infinities to `null`. -/
def JSNum.toJson : JSNum → Json
  | .finite m e => Json.num m e
  | _ => Json.null

/-- The JSON image of a `PredictionParams` (keys in declaration order,
which is the `useState` initializer's insertion order). -/
def paramsToJson (p : PredictionParams) : Json :=
  Json.obj [(fSubstrateType, Json.str p.substrateType),
            (fMetalChalcogenRatio, p.metalChalcogenRatio.toJson),
            (fHArRatio, p.hArRatio.toJson),
            (fPressureType, Json.str p.pressureType),
            (fMetalTemperature, p.metalTemperature.toJson),
            (fChalcogenTemperature, p.chalcogenTemperature.toJson),
            (fSubstratePosition, Json.str p.substratePosition),
            (fReactionTime, p.reactionTime.toJson),
            (fSaltAddition, Json.str p.saltAddition)]

/-- The JSON image of a `PredictionRecord`; `JSON.stringify` omits an
absent (`undefined`) `remarks`, and a remark added later by spread syntax
appends the key last. -/
def recordToJson (r : PredictionRecord) : Json :=
  Json.obj ([(fId, Json.str r.id),
             (fMaterial, Json.str r.material),
             (fParams, paramsToJson r.params),
             (fPrediction, Json.str r.prediction),
             (fTimestamp, Json.str r.timestamp)] ++
            (match r.remarks with
             | some t => [(fRemarks, Json.str t)]
             | none => []))

/-- The JSON image of the history list. -/
def historyToJson (h : List PredictionRecord) : Json :=
  Json.arr (h.map recordToJson)

/-- `JSON.stringify` of a `PredictionParams` value: the object literal, in
insertion order, compact (no whitespace), as JS emits it. -/
def renderParams (p : PredictionParams) : Str :=
  ['{'] ++
  renderJStr fSubstrateType ++ [':'] ++ renderJStr p.substrateType ++ [','] ++
  renderJStr fMetalChalcogenRatio ++ [':'] ++ renderJSNum p.metalChalcogenRatio ++ [','] ++
  renderJStr fHArRatio ++ [':'] ++ renderJSNum p.hArRatio ++ [','] ++
  renderJStr fPressureType ++ [':'] ++ renderJStr p.pressureType ++ [','] ++
  renderJStr fMetalTemperature ++ [':'] ++ renderJSNum p.metalTemperature ++ [','] ++
  renderJStr fChalcogenTemperature ++ [':'] ++ renderJSNum p.chalcogenTemperature ++ [','] ++
  renderJStr fSubstratePosition ++ [':'] ++ renderJStr p.substratePosition ++ [','] ++
  renderJStr fReactionTime ++ [':'] ++ renderJSNum p.reactionTime ++ [','] ++
  renderJStr fSaltAddition ++ [':'] ++ renderJStr p.saltAddition ++ ['}']

/-- `JSON.stringify` of a `PredictionRecord`: the base keys in creation
order; an absent (`undefined`) remark is omitted, a present one comes
last. -/
def renderRecord (r : PredictionRecord) : Str :=
  ['{'] ++
  renderJStr fId ++ [':'] ++ renderJStr r.id ++ [','] ++
  renderJStr fMaterial ++ [':'] ++ renderJStr r.material ++ [','] ++
  renderJStr fParams ++ [':'] ++ renderParams r.params ++ [','] ++
  renderJStr fPrediction ++ [':'] ++ renderJStr r.prediction ++ [','] ++
  renderJStr fTimestamp ++ [':'] ++ renderJStr r.timestamp ++
  (match r.remarks with
   | some t => [','] ++ renderJStr fRemarks ++ [':'] ++ renderJStr t
   | none => []) ++ ['}']

/-- Comma-separated rendering of the records of a history. -/
def renderRecords : List PredictionRecord → Str
  | [] => []
  | [r] => renderRecord r
  | r :: r2 :: rs => renderRecord r ++ [','] ++ renderRecords (r2 :: rs)

/-- `JSON.stringify(history)`: the serialized record array. -/
def stringifyHistory (h : List PredictionRecord) : Str :=
  match h with
  | [] => ['[', ']']
  | r :: t => ['['] ++ renderRecords (r :: t) ++ [']']

/-! ### `JSON.parse`, as an executable recursive-descent parser

The parser is total via a fuel argument; `jsonParse` supplies fuel
`length + 1`, which suffices because every recursive call consumes at
least one character. Restrictions against real `JSON.parse` (irrelevant
to the serializer's output and to the claims): surrogate-pair `\u`
escapes are not recombined, and a redundant leading zero in a number is
accepted rather than rejected. -/

/-- JSON whitespace. -/
def isWsChar (c : Char) : Bool :=
  c == ' ' || c == Char.ofNat 9 || c == Char.ofNat 10 || c == Char.ofNat 13

/-- Drop leading JSON whitespace. -/
def skipWs : Str → Str
  | [] => []
  | c :: cs => if isWsChar c then skipWs cs else c :: cs

/-- Split a leading run of decimal digits from the rest. -/
def splitDigits (s : Str) : Str × Str :=
  (s.takeWhile isDigitChar, s.dropWhile isDigitChar)

/-- Value of a hexadecimal digit character, if it is one. -/
def hexVal (c : Char) : Option Nat :=
  if 48 ≤ c.toNat ∧ c.toNat ≤ 57 then some (c.toNat - 48)
  else if 97 ≤ c.toNat ∧ c.toNat ≤ 102 then some (c.toNat - 87)
  else if 65 ≤ c.toNat ∧ c.toNat ≤ 70 then some (c.toNat - 55)
  else none

/-- Decode a single-character JSON escape. -/
def escDecode (c : Char) : Option Char :=
  if c = '"' then some '"'
  else if c = '\\' then some '\\'
  else if c = '/' then some '/'
  else if c = 'b' then some (Char.ofNat 8)
  else if c = 't' then some (Char.ofNat 9)
  else if c = 'n' then some (Char.ofNat 10)
  else if c = 'f' then some (Char.ofNat 12)
  else if c = 'r' then some (Char.ofNat 13)
  else none

/-- Parse a JSON string body (after the opening quote) up to and including
the closing quote, undoing escapes. -/
def parseJStr : Nat → Str → Option (Str × Str)
  | 0, _ => none
  | _ + 1, [] => none
  | fuel + 1, c :: cs =>
    if c = '"' then some ([], cs)
    else if c = '\\' then
      match cs with
      | 'u' :: a :: b :: c2 :: d :: cs2 =>
        match hexVal a, hexVal b, hexVal c2, hexVal d with
        | some va, some vb, some vc, some vd =>
          (parseJStr fuel cs2).map
            (fun r => (Char.ofNat (((va * 16 + vb) * 16 + vc) * 16 + vd) :: r.1, r.2))
        | _, _, _, _ => none
      | e :: cs2 =>
        match escDecode e with
        | some ch => (parseJStr fuel cs2).map (fun r => (ch :: r.1, r.2))
        | none => none
      | [] => none
    else (parseJStr fuel cs).map (fun r => (c :: r.1, r.2))

/-- Combine the integer/fraction parts with a (possibly signed) exponent
into the exact decimal `(mantissa, fractional length)` form. -/
def applyExp (m : Int) (e : Nat) (ex : Int) : Int × Nat :=
  if 0 ≤ ex then
    if e ≤ ex.toNat then (m * 10 ^ (ex.toNat - e), 0) else (m, e - ex.toNat)
  else (m, e + (-ex).toNat)

/-- The digits of a fractional part after the point (a point must be
followed by at least one digit). -/
def parseFracTail (r : Str) : Option (Nat × Nat × Str) :=
  match splitDigits r with
  | ([], _) => none
  | (fds, r2) => some (charsToNat fds, fds.length, r2)

/-- Parse an optional fractional part `.ddd`, returning its value, its
digit count, and the rest. -/
def parseFrac : Str → Option (Nat × Nat × Str)
  | [] => some (0, 0, [])
  | c :: r => if c = '.' then parseFracTail r else some (0, 0, c :: r)

/-- Parse the digit run of an exponent, with its sign already read. -/
def expDigits (s : Str) (negExp : Bool) : Option (Int × Str) :=
  match splitDigits s with
  | ([], _) => none
  | (ds, r) =>
    some (if negExp then -(charsToNat ds : Int) else (charsToNat ds : Int), r)

/-- What follows an `e`/`E` exponent marker: an optional sign and a digit
run. -/
def parseExpTail : Str → Option (Int × Str)
  | [] => none
  | c2 :: r2 =>
    if c2 = '+' then expDigits r2 false
    else if c2 = '-' then expDigits r2 true
    else expDigits (c2 :: r2) false

/-- Parse an optional exponent part `e±ddd`. -/
def parseExp : Str → Option (Int × Str)
  | [] => some (0, [])
  | c :: r => if c = 'e' ∨ c = 'E' then parseExpTail r else some (0, c :: r)

/-- The body of a JSON number after the optional sign: an integer digit
run, an optional fraction, and an optional exponent, combined into the
exact decimal form. -/
def parseNumCore (neg : Bool) (s1 : Str) : Option ((Int × Nat) × Str) :=
  match splitDigits s1 with
  | ([], _) => none
  | (ids, s2) =>
    match parseFrac s2 with
    | none => none
    | some (f, flen, s3) =>
      match parseExp s3 with
      | none => none
      | some (ex, s4) =>
        some (applyExp
          (if neg then -((charsToNat ids * 10 ^ flen + f : Nat) : Int)
           else ((charsToNat ids * 10 ^ flen + f : Nat) : Int)) flen ex, s4)

/-- Parse a JSON number into its exact decimal value. -/
def parseNumber : Str → Option ((Int × Nat) × Str)
  | [] => none
  | c :: r => if c = '-' then parseNumCore true r else parseNumCore false (c :: r)

mutual

/-- Parse one JSON value (after optional whitespace). -/
def parseValue : Nat → Str → Option (Json × Str)
  | 0, _ => none
  | fuel + 1, s =>
    match skipWs s with
    | [] => none
    | c :: cs =>
      if c = '"' then
        (parseJStr (cs.length + 1) cs).map (fun r => (Json.str r.1, r.2))
      else if c = '[' then
        match skipWs cs with
        | [] => none
        | c2 :: r =>
          if c2 = ']' then some (Json.arr [], r)
          else (parseItems fuel (c2 :: r)).map (fun p => (Json.arr p.1, p.2))
      else if c = '{' then
        match skipWs cs with
        | [] => none
        | c2 :: r =>
          if c2 = '}' then some (Json.obj [], r)
          else (parsePairs fuel (c2 :: r)).map (fun p => (Json.obj p.1, p.2))
      else if c = 'n' then
        match cs with
        | 'u' :: 'l' :: 'l' :: r => some (Json.null, r)
        | _ => none
      else if c = 't' then
        match cs with
        | 'r' :: 'u' :: 'e' :: r => some (Json.bool true, r)
        | _ => none
      else if c = 'f' then
        match cs with
        | 'a' :: 'l' :: 's' :: 'e' :: r => some (Json.bool false, r)
        | _ => none
      else if c = '-' ∨ isDigitChar c then
        (parseNumber (c :: cs)).map (fun p => (Json.num p.1.1 p.1.2, p.2))
      else none

/-- Parse one or more comma-separated array elements and the closing
bracket. -/
def parseItems : Nat → Str → Option (List Json × Str)
  | 0, _ => none
  | fuel + 1, s =>
    match parseValue fuel s with
    | none => none
    | some (v, r) =>
      match skipWs r with
      | ',' :: r2 => (parseItems fuel r2).map (fun p => (v :: p.1, p.2))
      | ']' :: r2 => some ([v], r2)
      | _ => none

/-- Parse one or more comma-separated object members and the closing
brace. -/
def parsePairs : Nat → Str → Option (List (Str × Json) × Str)
  | 0, _ => none
  | fuel + 1, s =>
    match skipWs s with
    | [] => none
    | c :: cs =>
      if c = '"' then
        match parseJStr (cs.length + 1) cs with
        | none => none
        | some (k, r1) =>
          match skipWs r1 with
          | ':' :: r2 =>
            (match parseValue fuel r2 with
             | none => none
             | some (v, r3) =>
               match skipWs r3 with
               | ',' :: r4 => (parsePairs fuel r4).map (fun p => ((k, v) :: p.1, p.2))
               | '}' :: r4 => some ([(k, v)], r4)
               | _ => none)
          | _ => none
      else none

end

/-- `JSON.parse`: a complete document is one value with only trailing
whitespace. `none` models a thrown `SyntaxError`. -/
def jsonParse (s : Str) : Option Json :=
  match parseValue (s.length + 1) s with
  | some (j, r) => if skipWs r = [] then some j else none
  | none => none

/-! ### Structural decoding (the record shape the app relies on) -/

/-- The string a JSON value holds, if it is a string. -/
def Json.asStr : Json → Option Str
  | .str s => some s
  | _ => none

/-- The JS number a JSON value holds, if it is a number. -/
def Json.asNum : Json → Option JSNum
  | .num m e => some (JSNum.finite m e)
  | _ => none

/-- First binding of a key in an object's member list (the relevant
member lists have distinct keys). -/
def lookupKey (ms : List (Str × Json)) (k : Str) : Option Json :=
  match ms.find? (fun kv => kv.1 == k) with
  | some kv => some kv.2
  | none => none

/-- Read a `PredictionParams` out of a JSON value, requiring exactly the
structure the app dereferences. -/
def fromJsonParams (j : Json) : Option PredictionParams :=
  match j with
  | .obj ms => do
    let st ← (lookupKey ms fSubstrateType).bind Json.asStr
    let mcr ← (lookupKey ms fMetalChalcogenRatio).bind Json.asNum
    let har ← (lookupKey ms fHArRatio).bind Json.asNum
    let pt ← (lookupKey ms fPressureType).bind Json.asStr
    let mt ← (lookupKey ms fMetalTemperature).bind Json.asNum
    let ct ← (lookupKey ms fChalcogenTemperature).bind Json.asNum
    let sp ← (lookupKey ms fSubstratePosition).bind Json.asStr
    let rt ← (lookupKey ms fReactionTime).bind Json.asNum
    let sa ← (lookupKey ms fSaltAddition).bind Json.asStr
    some ⟨st, mcr, har, pt, mt, ct, sp, rt, sa⟩
  | _ => none

/-- Read a `PredictionRecord` out of a JSON value. -/
def fromJsonRecord (j : Json) : Option PredictionRecord :=
  match j with
  | .obj ms => do
    let idv ← (lookupKey ms fId).bind Json.asStr
    let mat ← (lookupKey ms fMaterial).bind Json.asStr
    let prm ← (lookupKey ms fParams).bind fromJsonParams
    let prd ← (lookupKey ms fPrediction).bind Json.asStr
    let ts ← (lookupKey ms fTimestamp).bind Json.asStr
    let rem ← (match lookupKey ms fRemarks with
               | none => some none
               | some v => (Json.asStr v).map some)
    some ⟨idv, mat, prm, prd, ts, rem⟩
  | _ => none

/-- Read a full history out of a JSON value: an array of records. -/
def fromJsonHistory (j : Json) : Option (List PredictionRecord) :=
  match j with
  | .arr es => es.mapM fromJsonRecord
  | _ => none

/-! ### The cookie slot (Persistence Adapter) -/

/-- Assigning `document.cookie = name=value;...` keeps the value only up
to the first `';'`. -/
def cookieStoredValue (v : Str) : Str := v.takeWhile (fun c => c != ';')

/-- `getCookie('cvd_history')`: absent slot gives `null`; a present value
is read up to the first `';'`, and an empty result is turned into `null`
by `|| null`. -/
def getCookieVal (slot : Option Str) : Option Str :=
  match slot with
  | none => none
  | some v =>
    match v.takeWhile (fun c => c != ';') with
    | [] => none
    | v2 => some v2

/-- What the mount-time load effect leaves in the component: either the
initial empty history (slot absent, or `JSON.parse` threw and the error
was logged) or the parsed JSON value installed verbatim by `setHistory`
(no structural validation). -/
inductive LoadOutcome where
  | initial
  | stored (j : Json)

/-- The load effect: reads the cookie, tries `JSON.parse`, catches only
the parse error (second component: whether `console.error` ran). -/
def loadHistory (slot : Option Str) : LoadOutcome × Bool :=
  match getCookieVal slot with
  | none => (LoadOutcome.initial, false)
  | some s =>
    match jsonParse s with
    | some j => (LoadOutcome.stored j, false)
    | none => (LoadOutcome.initial, true)

/-! ### Parameter Validator -/

/-- `field.replace(/([A-Z])/g, ' $1').toLowerCase()`: a space before each
capital, then lower-cased. -/
def fieldLabel (f : Str) : Str :=
  (f.flatMap (fun c => if c.isUpper then [' ', c] else [c])).map Char.toLower

/-- The required (select) fields, with accessors, in the source's check
order. -/
def requiredFields : List (Str × (PredictionParams → Str)) :=
  [(fSubstrateType, PredictionParams.substrateType),
   (fPressureType, PredictionParams.pressureType),
   (fSubstratePosition, PredictionParams.substratePosition),
   (fSaltAddition, PredictionParams.saltAddition)]

/-- The numeric fields, with accessors, in the source's check order. -/
def numericFields : List (Str × (PredictionParams → JSNum)) :=
  [(fMetalChalcogenRatio, PredictionParams.metalChalcogenRatio),
   (fHArRatio, PredictionParams.hArRatio),
   (fMetalTemperature, PredictionParams.metalTemperature),
   (fChalcogenTemperature, PredictionParams.chalcogenTemperature),
   (fReactionTime, PredictionParams.reactionTime)]

/-- `validateForm`, returning the name of the first failing field (the
source fires a toast for it and returns `false`), or `none` when the form
passes. A required string field fails when falsy (empty); a numeric field
fails when `value <= 0 || isNaN(value)` (the `typeof value === 'number'`
guard always holds for these fields). -/
def validateForm (formData : PredictionParams) : Option Str :=
  match requiredFields.find? (fun f => (f.2 formData).isEmpty) with
  | some f => some f.1
  | none =>
    (numericFields.find?
      (fun f => (f.2 formData).jsLeZero || (f.2 formData).jsIsNaN)).map (fun f => f.1)

/-- The toast `validateForm` fires for a failing field. -/
def validationToast (f : Str) : Toast :=
  ⟨chars "Validation Error",
   (if (requiredFields.map (fun x => x.1)).contains f then chars "Please select "
    else chars "Please enter a valid ") ++ fieldLabel f,
   ToastVariant.destructive⟩

/-! ### Prediction Orchestrator -/

/-- Outcome of the `fetch` call, as far as the handlers can observe it:
transport success with a body carrying an outcome label, a non-success
response status, or a rejected fetch (network error). -/
inductive FetchResult where
  | ok (label : Str)
  | httpError
  | networkError
deriving DecidableEq

/-- V1's `materialMap` object literal. -/
def materialMap : List (Str × Str) :=
  [(mWs2, codeWSe2), (mMos2, codeMoS2), (mWse2, codeWSe2), (mMose2, codeMoSe2)]

/-- `materialMap[selectedMaterial] || 'WSe2'`. -/
def apiMaterial (selectedMaterial : Str) : Str :=
  match materialMap.find? (fun kv => kv.1 == selectedMaterial) with
  | some kv => kv.2
  | none => codeWSe2

/-- The record both variants construct: id `Date.now().toString()`,
selected material, a snapshot copy of the form data, the outcome label,
creation timestamp, no remark. `isoTimestamp` below renders the same
clock reading; the exact ISO format is immaterial to every claim, so the
timestamp is modelled as the clock value's digits. -/
def isoTimestamp (now : Nat) : Str := natToChars now

/-- The `newRecord` object literal of both variants. -/
def mkRecord (selectedMaterial : Str) (formData : PredictionParams)
    (prediction : Str) (now : Nat) : PredictionRecord :=
  ⟨natToChars now, selectedMaterial, formData, prediction, isoTimestamp now, none⟩

/-- Everything a single `handleSubmit` run leaves behind. -/
structure SubmitOut where
  history : List PredictionRecord
  wrote : Option Str
  currentPrediction : Option Str
  toasts : List Toast
deriving DecidableEq

/-- The "Prediction Complete" toast (no variant: normal styling). -/
def toastComplete (prediction : Str) : Toast :=
  ⟨chars "Prediction Complete", chars "Result: " ++ prediction, ToastVariant.normal⟩

/-- V1's "API Error" toast on a non-success status (destructive); the
description interpolates the response status. -/
def toastApiError : Toast :=
  ⟨chars "API Error", chars "Server returned an error status", ToastVariant.destructive⟩

/-- V1's "Network Error" toast when the fetch rejects (destructive). -/
def toastNetworkError : Toast :=
  ⟨chars "Network Error",
   chars "Failed to connect to the prediction server. Please check if the server is running.",
   ToastVariant.destructive⟩

/-- V1's `handleSubmit` (first component): validate; on success store the
returned label verbatim, prepend the record, write the cookie; on a
non-success status or a network error, fire a destructive toast and
create no record and no write. -/
def handleSubmitV1 (history : List PredictionRecord) (selectedMaterial : Str)
    (formData : PredictionParams) (resp : FetchResult) (now : Nat) : SubmitOut :=
  match validateForm formData with
  | some f => ⟨history, none, none, [validationToast f]⟩
  | none =>
    match resp with
    | FetchResult.ok label =>
      ⟨mkRecord selectedMaterial formData label now :: history,
       some (stringifyHistory (mkRecord selectedMaterial formData label now :: history)),
       some label, [toastComplete label]⟩
    | FetchResult.httpError => ⟨history, none, none, [toastApiError]⟩
    | FetchResult.networkError => ⟨history, none, none, [toastNetworkError]⟩

/-- V2's simulation pool `['excellent', 'qualified', 'no yield']`. -/
def predictionsPool : List Str := [labelExcellent, labelQualified, labelNoYield]

/-- `predictions[Math.floor(Math.random() * predictions.length)]`: the
uniformly random index is modelled as a `Fin 3`. -/
def simulatedLabel (i : Fin 3) : Str := predictionsPool.getD i.val []

/-- V2's `handleSubmit` (second component): validate; use the returned
label on success, otherwise simulate one; in every non-rejected case
create exactly one record, prepend it, write the cookie, and fire the
normal "Prediction Complete" toast. -/
def handleSubmitV2 (history : List PredictionRecord) (selectedMaterial : Str)
    (formData : PredictionParams) (resp : FetchResult) (now : Nat)
    (rand : Fin 3) : SubmitOut :=
  match validateForm formData with
  | some f => ⟨history, none, none, [validationToast f]⟩
  | none =>
    match resp with
    | FetchResult.ok label =>
      ⟨mkRecord selectedMaterial formData label now :: history,
       some (stringifyHistory (mkRecord selectedMaterial formData label now :: history)),
       some label, [toastComplete label]⟩
    | _ =>
      ⟨mkRecord selectedMaterial formData (simulatedLabel rand) now :: history,
       some (stringifyHistory (mkRecord selectedMaterial formData (simulatedLabel rand) now :: history)),
       some (simulatedLabel rand), [toastComplete (simulatedLabel rand)]⟩

/-! ### History Store mutations -/

/-- `handleRemarksEdit`: map over the history replacing the remark of
every record with the given id; write the whole collection. Returns the
new history and the serialized value handed to `setCookie`. -/
def handleRemarksEdit (history : List PredictionRecord) (recordId remarks : Str) :
    List PredictionRecord × Str :=
  (history.map (fun r =>
     if r.id == recordId then
       ⟨r.id, r.material, r.params, r.prediction, r.timestamp, some remarks⟩
     else r),
   stringifyHistory (history.map (fun r =>
     if r.id == recordId then
       ⟨r.id, r.material, r.params, r.prediction, r.timestamp, some remarks⟩
     else r)))

/-- The "Record Deleted" toast (no variant: normal styling). -/
def toastDeleted : Toast :=
  ⟨chars "Record Deleted", chars "Prediction record has been removed from history.",
   ToastVariant.normal⟩

/-- `handleDeleteRecord` (V1 only): filter out records with the given id,
write the whole collection, fire the success toast. Returns the new
history, the serialized value handed to `setCookie`, and the toast. -/
def handleDeleteRecord (history : List PredictionRecord) (recordId : Str) :
    List PredictionRecord × Str × Toast :=
  (history.filter (fun r => r.id != recordId),
   stringifyHistory (history.filter (fun r => r.id != recordId)),
   toastDeleted)

/-! ### View Projector -/

/-- `recordsPerPage = 10`. -/
def recordsPerPage : Nat := 10

/-- The filter effect: an optional material-equality filter, then an
optional prediction-equality filter (value `'all'` means no filter). -/
def filteredHistoryFor (history : List PredictionRecord)
    (filterMaterial filterPrediction : Str) : List PredictionRecord :=
  (if filterMaterial == chars "all" then history
   else history.filter (fun r => r.material == filterMaterial)).filter
    (fun r => filterPrediction == chars "all" || r.prediction == filterPrediction)

/-- `Math.ceil(filteredHistory.length / recordsPerPage)` (exact for these
magnitudes). -/
def totalPages (filteredHistory : List PredictionRecord) : Nat :=
  (filteredHistory.length + recordsPerPage - 1) / recordsPerPage

/-- `filteredHistory.slice(startIndex, endIndex)` with
`startIndex = (currentPage - 1) * recordsPerPage`. -/
def currentRecords (filteredHistory : List PredictionRecord) (currentPage : Nat) :
    List PredictionRecord :=
  (filteredHistory.drop ((currentPage - 1) * recordsPerPage)).take recordsPerPage

/-- The previous-page button: `Math.max(1, prev - 1)`. -/
def prevPageClick (currentPage : Nat) : Nat := max 1 (currentPage - 1)

/-- The next-page button: `Math.min(totalPages, prev + 1)`. -/
def nextPageClick (tp currentPage : Nat) : Nat := min tp (currentPage + 1)

/-! ### Store-level operation sequences (for the round-trip law) -/

/-- One History Store mutation, at the store level: `append` is the
record-creating tail of a successful submit, `setRemark` is
`handleRemarksEdit`, `delete` is `handleDeleteRecord`. -/
inductive StoreOp where
  | append (r : PredictionRecord)
  | setRemark (recordId text : Str)
  | delete (recordId : Str)
deriving DecidableEq

/-- Apply one store operation to the in-memory history. -/
def applyStoreOp (h : List PredictionRecord) : StoreOp → List PredictionRecord
  | StoreOp.append r => r :: h
  | StoreOp.setRemark i t => (handleRemarksEdit h i t).1
  | StoreOp.delete i => (handleDeleteRecord h i).1

/-- Replay a sequence of store operations. -/
def replayStore (h0 : List PredictionRecord) (ops : List StoreOp) :
    List PredictionRecord :=
  ops.foldl applyStoreOp h0

/-- The text of the last `setRemark` for an id that is still the one
governing that id (an `append` of a record with the same id supersedes
earlier remark edits for it). -/
def lastRemarkStep (i : Str) (acc : Option Str) : StoreOp → Option Str
  | StoreOp.setRemark j t => if j = i then some t else acc
  | StoreOp.append r => if r.id = i then none else acc
  | StoreOp.delete _ => acc

/-- The governing `setRemark` text for id `i` after `ops`. -/
def lastRemark (ops : List StoreOp) (i : Str) : Option Str :=
  ops.foldl (lastRemarkStep i) none

/-! ### Cleanliness: the conditions under which the cookie round-trip is
lossless. A `';'` in any serialized string field truncates the stored
cookie value; a non-finite number serializes to `null` and cannot be read
back as a number. -/

/-- No `';'` in the string (safe for an unencoded cookie value). -/
def strClean (s : Str) : Bool := s.all (fun c => c != ';')

/-- All string fields `';'`-free and all numeric fields finite. -/
def paramsClean (p : PredictionParams) : Bool :=
  strClean p.substrateType && strClean p.pressureType &&
  strClean p.substratePosition && strClean p.saltAddition &&
  p.metalChalcogenRatio.jsFinite && p.hArRatio.jsFinite &&
  p.metalTemperature.jsFinite && p.chalcogenTemperature.jsFinite &&
  p.reactionTime.jsFinite

/-- All of a record's string fields `';'`-free, numeric fields finite. -/
def recordClean (r : PredictionRecord) : Bool :=
  strClean r.id && strClean r.material && paramsClean r.params &&
  strClean r.prediction && strClean r.timestamp &&
  (match r.remarks with
   | none => true
   | some t => strClean t)

/-- Cleanliness of a whole history. -/
def historyClean (h : List PredictionRecord) : Bool := h.all recordClean

/-- Cleanliness of one store operation's inputs. -/
def opClean : StoreOp → Bool
  | StoreOp.append r => recordClean r
  | StoreOp.setRemark _ t => strClean t
  | StoreOp.delete _ => true

/-- Cleanliness of a sequence of store operations. -/
def opsClean (ops : List StoreOp) : Bool := ops.all opClean

/-! ### Session-level events (for the identifier invariant) -/

/-- One session event that touches the history: a record-creating submit
(with its `Date.now()` reading), a remark edit, or a deletion. -/
inductive SessionEv where
  | submit (now : Nat) (selectedMaterial : Str) (formData : PredictionParams) (label : Str)
  | remark (recordId text : Str)
  | removeRec (recordId : Str)

/-- Apply one session event to the history. -/
def applySessionEv (h : List PredictionRecord) : SessionEv → List PredictionRecord
  | SessionEv.submit now m p label => mkRecord m p label now :: h
  | SessionEv.remark i t => (handleRemarksEdit h i t).1
  | SessionEv.removeRec i => (handleDeleteRecord h i).1

/-- Replay a session from a loaded initial history. -/
def replaySession (h0 : List PredictionRecord) (evs : List SessionEv) :
    List PredictionRecord :=
  evs.foldl applySessionEv h0

/-- The `Date.now()` readings of the record-creating events, in order. -/
def submitTimes (evs : List SessionEv) : List Nat :=
  evs.filterMap (fun e =>
    match e with
    | SessionEv.submit n _ _ _ => some n
    | _ => none)

/-- The record identifiers of a history, in order. -/
def recordIds (h : List PredictionRecord) : List Str :=
  h.map (fun r => r.id)

/-! ## Lemmas: decimal digits -/

/-- A rest that cannot extend a digit run: empty or headed by a
non-digit. -/
def headNotDigit : Str → Bool
  | [] => true
  | c :: _ => !isDigitChar c

/-- A rest that cannot extend a rendered number: empty or headed by a
character that is no digit and none of `.`, `e`, `E`. Every delimiter
that follows a number in rendered JSON (`,`, `]`, `}`, end of input)
qualifies. -/
def numStop : Str → Bool
  | [] => true
  | c :: _ => !(isDigitChar c || c == '.' || c == 'e' || c == 'E')

theorem numStop_props {c : Char} {t : Str} (h : numStop (c :: t) = true) :
    isDigitChar c = false ∧ c ≠ '.' ∧ c ≠ 'e' ∧ c ≠ 'E' := by
  simp only [numStop, Bool.not_eq_true', Bool.or_eq_false_iff, beq_eq_false_iff_ne] at h
  exact ⟨h.1.1.1, h.1.1.2, h.1.2, h.2⟩

theorem numStop_headNotDigit {s : Str} (h : numStop s = true) :
    headNotDigit s = true := by
  cases s with
  | nil => rfl
  | cons c t => simp [headNotDigit, (numStop_props h).1]

theorem digitChar_isDigit {d : Nat} (h : d < 10) : isDigitChar (digitChar d) = true := by
  interval_cases d <;> decide

theorem digitVal_digitChar {d : Nat} (h : d < 10) : digitVal (digitChar d) = d := by
  interval_cases d <;> decide

theorem digit_ne {c d : Char} (h48 : 48 ≤ c.toNat) (h57 : c.toNat ≤ 57)
    (hd : d.toNat < 48 ∨ 57 < d.toNat) : c ≠ d := by
  intro he
  rcases hd with hd | hd <;> (rw [he] at h48 h57; omega)

theorem digit_not_ws {c : Char} (h48 : 48 ≤ c.toNat) (h57 : c.toNat ≤ 57) :
    isWsChar c = false := by
  simp only [isWsChar, Bool.or_eq_false_iff]
  refine ⟨⟨⟨?_, ?_⟩, ?_⟩, ?_⟩ <;>
    exact beq_eq_false_iff_ne.mpr (digit_ne h48 h57 (by decide))

theorem isDigitChar_props {c : Char} (h : isDigitChar c = true) :
    c ≠ '-' ∧ c ≠ '.' ∧ c ≠ 'e' ∧ c ≠ 'E' ∧ isWsChar c = false ∧ c ≠ '"' ∧
    c ≠ '[' ∧ c ≠ ']' ∧ c ≠ '{' ∧ c ≠ '}' ∧ c ≠ ',' ∧ c ≠ 'n' ∧ c ≠ 't' ∧
    c ≠ 'f' ∧ c ≠ ';' ∧ c ≠ ':' := by
  simp only [isDigitChar, decide_eq_true_eq] at h
  obtain ⟨h48, h57⟩ := h
  exact ⟨digit_ne h48 h57 (by decide), digit_ne h48 h57 (by decide),
    digit_ne h48 h57 (by decide), digit_ne h48 h57 (by decide),
    digit_not_ws h48 h57, digit_ne h48 h57 (by decide),
    digit_ne h48 h57 (by decide), digit_ne h48 h57 (by decide),
    digit_ne h48 h57 (by decide), digit_ne h48 h57 (by decide),
    digit_ne h48 h57 (by decide), digit_ne h48 h57 (by decide),
    digit_ne h48 h57 (by decide), digit_ne h48 h57 (by decide),
    digit_ne h48 h57 (by decide), digit_ne h48 h57 (by decide)⟩

theorem natToCharsFuel_fuel (n : Nat) : ∀ (f1 f2 : Nat) (acc : List Char),
    n < f1 → n < f2 → natToCharsFuel f1 n acc = natToCharsFuel f2 n acc := by
  induction n using Nat.strong_induction_on with
  | _ n ih =>
    intro f1 f2 acc h1 h2
    cases f1 with
    | zero => omega
    | succ g1 =>
      cases f2 with
      | zero => omega
      | succ g2 =>
        by_cases h : n < 10
        · simp [natToCharsFuel, h]
        · simp only [natToCharsFuel, if_neg h]
          exact ih (n / 10) (Nat.div_lt_self (by omega) (by omega)) g1 g2 _
            (by omega) (by omega)

theorem natToCharsFuel_acc (n : Nat) : ∀ (f : Nat) (acc : List Char), n < f →
    natToCharsFuel f n acc = natToCharsFuel f n [] ++ acc := by
  induction n using Nat.strong_induction_on with
  | _ n ih =>
    intro f acc hf
    cases f with
    | zero => omega
    | succ g =>
      by_cases h : n < 10
      · simp [natToCharsFuel, h]
      · simp only [natToCharsFuel, if_neg h]
        have hlt : n / 10 < g := by
          have := Nat.div_lt_self (show 0 < n by omega) (show 1 < 10 by omega)
          omega
        rw [ih (n / 10) (Nat.div_lt_self (by omega) (by omega)) g _ hlt,
          ih (n / 10) (Nat.div_lt_self (by omega) (by omega)) g [digitChar (n % 10)] hlt]
        simp

theorem natToChars_unfold (n : Nat) :
    natToChars n = (if n < 10 then [] else natToChars (n / 10)) ++ [digitChar (n % 10)] := by
  by_cases h : n < 10
  · show natToCharsFuel (n + 1) n [] = _
    cases hn : n + 1 with
    | zero => omega
    | succ g =>
      simp only [natToCharsFuel, if_pos h, if_pos h, Nat.mod_eq_of_lt h]
      rfl
  · show natToCharsFuel (n + 1) n [] = _
    have step : natToCharsFuel (n + 1) n [] =
        natToCharsFuel n (n / 10) [digitChar (n % 10)] := by
      simp [natToCharsFuel, h]
    have hlt : n / 10 < n := Nat.div_lt_self (by omega) (by omega)
    rw [step, natToCharsFuel_acc _ _ _ hlt,
      natToCharsFuel_fuel (n / 10) n (n / 10 + 1) [] hlt (by omega), if_neg h]
    rfl

theorem natToChars_ne_nil (n : Nat) : natToChars n ≠ [] := by
  rw [natToChars_unfold]; simp

theorem natToChars_digits (n : Nat) : ∀ c ∈ natToChars n, isDigitChar c = true := by
  induction n using Nat.strong_induction_on with
  | _ n ih =>
    rw [natToChars_unfold]
    intro c hc
    rcases List.mem_append.mp hc with h1 | h2
    · by_cases h : n < 10
      · simp [h] at h1
      · exact ih (n / 10) (Nat.div_lt_self (by omega) (by omega)) c (by simpa [h] using h1)
    · rw [List.mem_singleton] at h2
      subst h2
      exact digitChar_isDigit (Nat.mod_lt _ (by omega))

theorem charsToNat_foldl (ds : Str) : ∀ init : Nat,
    ds.foldl (fun a c => 10 * a + digitVal c) init = init * 10 ^ ds.length + charsToNat ds := by
  induction ds with
  | nil => intro init; simp [charsToNat]
  | cons c t ih =>
    intro init
    show t.foldl _ (10 * init + digitVal c) = init * 10 ^ (c :: t).length + charsToNat (c :: t)
    have hrhs : charsToNat (c :: t) = (10 * 0 + digitVal c) * 10 ^ t.length + charsToNat t := by
      show t.foldl _ (10 * 0 + digitVal c) = _
      rw [ih]
    rw [ih, hrhs, List.length_cons, pow_succ]
    ring

theorem charsToNat_append (a b : Str) :
    charsToNat (a ++ b) = charsToNat a * 10 ^ b.length + charsToNat b := by
  show (a ++ b).foldl _ 0 = _
  rw [List.foldl_append, charsToNat_foldl]
  rfl

theorem charsToNat_natToChars (n : Nat) : charsToNat (natToChars n) = n := by
  induction n using Nat.strong_induction_on with
  | _ n ih =>
    rw [natToChars_unfold, charsToNat_append]
    have hone : charsToNat [digitChar (n % 10)] = n % 10 := by
      show 10 * 0 + digitVal (digitChar (n % 10)) = n % 10
      rw [digitVal_digitChar (Nat.mod_lt _ (by omega))]
      omega
    by_cases h : n < 10
    · rw [if_pos h, hone]
      show charsToNat [] * _ + _ = n
      have : charsToNat ([] : Str) = 0 := rfl
      rw [this]
      omega
    · rw [if_neg h, hone, ih (n / 10) (Nat.div_lt_self (by omega) (by omega))]
      simp only [List.length_singleton, pow_one]
      omega

theorem natToChars_inj {a b : Nat} (h : natToChars a = natToChars b) : a = b := by
  have ha := charsToNat_natToChars a
  rw [h, charsToNat_natToChars] at ha
  omega

/-! ## Lemmas: padded digits and digit runs -/

theorem paddedDigits_digits (n k : Nat) : ∀ c ∈ paddedDigits n k, isDigitChar c = true := by
  intro c hc
  rcases List.mem_append.mp hc with h | h
  · rw [(List.mem_replicate.mp h).2]; decide
  · exact natToChars_digits n c h

theorem charsToNat_replicate_zeros (k : Nat) : charsToNat (List.replicate k '0') = 0 := by
  induction k with
  | zero => rfl
  | succ k ih =>
    rw [List.replicate_succ]
    show (List.replicate k '0').foldl _ (10 * 0 + digitVal '0') = 0
    have : 10 * 0 + digitVal '0' = 0 := by decide
    rw [this]
    exact ih

theorem charsToNat_paddedDigits (n k : Nat) : charsToNat (paddedDigits n k) = n := by
  rw [paddedDigits, charsToNat_append, charsToNat_replicate_zeros, charsToNat_natToChars]
  simp

theorem le_length_paddedDigits (n k : Nat) : k ≤ (paddedDigits n k).length := by
  rw [paddedDigits, List.length_append, List.length_replicate]
  omega

theorem length_paddedDigits_pos (n k : Nat) : 0 < (paddedDigits n k).length := by
  rw [paddedDigits, List.length_append]
  have := List.length_pos.mpr (natToChars_ne_nil n)
  omega

theorem splitDigits_stop {s : Str} (h : headNotDigit s = true) :
    splitDigits s = ([], s) := by
  cases s with
  | nil => rfl
  | cons c t =>
    have hc : isDigitChar c = false := by simpa [headNotDigit] using h
    simp [splitDigits, List.takeWhile_cons, List.dropWhile_cons, hc]

theorem splitDigits_run (ds : Str) (rest : Str) (hds : ∀ c ∈ ds, isDigitChar c = true)
    (hrest : headNotDigit rest = true) : splitDigits (ds ++ rest) = (ds, rest) := by
  induction ds with
  | nil => simpa using splitDigits_stop hrest
  | cons c t ih =>
    have hc : isDigitChar c = true := hds c (List.mem_cons_self ..)
    have ht := ih (fun x hx => hds x (List.mem_cons_of_mem _ hx))
    have ht1 : (t ++ rest).takeWhile isDigitChar = t := congrArg Prod.fst ht
    have ht2 : (t ++ rest).dropWhile isDigitChar = rest := congrArg Prod.snd ht
    simp [splitDigits, List.takeWhile_cons, List.dropWhile_cons, hc, ht1, ht2]

/-! ## Lemmas: the number codec round-trip -/

theorem parseFrac_stop {s : Str} (h : numStop s = true) : parseFrac s = some (0, 0, s) := by
  cases s with
  | nil => rfl
  | cons c t =>
    show (if c = '.' then parseFracTail t else some (0, 0, c :: t)) = some (0, 0, c :: t)
    rw [if_neg (numStop_props h).2.1]

theorem parseExp_stop {s : Str} (h : numStop s = true) : parseExp s = some (0, s) := by
  cases s with
  | nil => rfl
  | cons c t =>
    show (if c = 'e' ∨ c = 'E' then parseExpTail t else some (0, c :: t)) = some (0, c :: t)
    rw [if_neg]
    rintro (rfl | rfl)
    · exact (numStop_props h).2.2.1 rfl
    · exact (numStop_props h).2.2.2 rfl

theorem applyExp_zero (m : Int) (e : Nat) : applyExp m e 0 = (m, e) := by
  cases e with
  | zero => simp [applyExp]
  | succ k => simp [applyExp]

theorem parseFracTail_run (fds rest : Str) (hne : fds ≠ [])
    (hdig : ∀ c ∈ fds, isDigitChar c = true) (hnd : headNotDigit rest = true) :
    parseFracTail (fds ++ rest) = some (charsToNat fds, fds.length, rest) := by
  obtain ⟨c0, t0, rfl⟩ : ∃ c0 t0, fds = c0 :: t0 := by
    cases fds with
    | nil => exact absurd rfl hne
    | cons c0 t0 => exact ⟨c0, t0, rfl⟩
  rw [parseFracTail, splitDigits_run _ _ hdig hnd]

theorem parseNumCore_eq (neg : Bool) (ids tail : Str) (hne : ids ≠ [])
    (hdig : ∀ c ∈ ids, isDigitChar c = true) (hnd : headNotDigit tail = true)
    {f flen : Nat} {s3 : Str} (hf : parseFrac tail = some (f, flen, s3))
    {ex : Int} {s4 : Str} (he : parseExp s3 = some (ex, s4)) :
    parseNumCore neg (ids ++ tail) =
      some (applyExp
        (if neg then -((charsToNat ids * 10 ^ flen + f : Nat) : Int)
         else ((charsToNat ids * 10 ^ flen + f : Nat) : Int)) flen ex, s4) := by
  obtain ⟨c0, t0, rfl⟩ : ∃ c0 t0, ids = c0 :: t0 := by
    cases ids with
    | nil => exact absurd rfl hne
    | cons c0 t0 => exact ⟨c0, t0, rfl⟩
  rw [parseNumCore, splitDigits_run _ _ hdig hnd]
  simp only [hf, he]

theorem parseNumber_renderDec (m : Int) (e : Nat) (rest : Str)
    (hr : numStop rest = true) :
    parseNumber (renderDec m e ++ rest) = some ((m, e), rest) := by
  by_cases he : e = 0
  · -- no fractional part
    subst he
    have hpd : paddedDigits m.natAbs 1 = natToChars m.natAbs := by
      rw [paddedDigits]
      have := List.length_pos.mpr (natToChars_ne_nil m.natAbs)
      have h0 : 1 - (natToChars m.natAbs).length = 0 := by omega
      rw [h0]
      rfl
    have hrd : renderDec m 0 = (if m < 0 then ['-'] else []) ++ natToChars m.natAbs := by
      rw [renderDec, hpd]
      simp [List.take_length]
    have hcore : ∀ b : Bool, parseNumCore b (natToChars m.natAbs ++ rest) =
        some (applyExp
          (if b then -((charsToNat (natToChars m.natAbs) * 10 ^ 0 + 0 : Nat) : Int)
           else ((charsToNat (natToChars m.natAbs) * 10 ^ 0 + 0 : Nat) : Int)) 0 0, rest) :=
      fun b => parseNumCore_eq b _ rest (natToChars_ne_nil _) (natToChars_digits _)
        (numStop_headNotDigit hr) (parseFrac_stop hr) (parseExp_stop hr)
    by_cases hm : m < 0
    · rw [hrd, if_pos hm]
      show (if ('-' : Char) = '-' then parseNumCore true (natToChars m.natAbs ++ rest)
            else parseNumCore false ('-' :: (natToChars m.natAbs ++ rest))) = _
      rw [if_pos rfl, hcore true, applyExp_zero]
      have hv : -((charsToNat (natToChars m.natAbs) * 10 ^ 0 + 0 : Nat) : Int) = m := by
        rw [charsToNat_natToChars]
        simp only [pow_zero, mul_one, Nat.add_zero]
        omega
      rw [hv]
      simp
    · rw [hrd, if_neg hm]
      obtain ⟨c0, t0, h0⟩ : ∃ c0 t0, natToChars m.natAbs = c0 :: t0 := by
        cases hh : natToChars m.natAbs with
        | nil => exact absurd hh (natToChars_ne_nil _)
        | cons c0 t0 => exact ⟨c0, t0, rfl⟩
      have hc0 : isDigitChar c0 = true := natToChars_digits _ c0 (h0 ▸ List.mem_cons_self ..)
      rw [List.nil_append, h0, List.cons_append]
      show (if c0 = '-' then parseNumCore true (t0 ++ rest)
            else parseNumCore false (c0 :: (t0 ++ rest))) = _
      rw [if_neg (isDigitChar_props hc0).1, ← List.cons_append, ← h0, hcore false,
        applyExp_zero]
      have hv : ((charsToNat (natToChars m.natAbs) * 10 ^ 0 + 0 : Nat) : Int) = m := by
        rw [charsToNat_natToChars]
        simp only [pow_zero, mul_one, Nat.add_zero]
        omega
      rw [hv]
      simp
  · -- with a fractional part of e digits
    have hL : e + 1 ≤ (paddedDigits m.natAbs (e + 1)).length := le_length_paddedDigits _ _
    set pd := paddedDigits m.natAbs (e + 1) with hpdef
    set ipart := pd.take (pd.length - e) with hidef
    set fpart := pd.drop (pd.length - e) with hfdef
    have hif : ipart ++ fpart = pd := List.take_append_drop _ _
    have hflen : fpart.length = e := by
      rw [hfdef, List.length_drop]; omega
    have hilen : 0 < ipart.length := by
      rw [hidef, List.length_take]; omega
    have hidig : ∀ c ∈ ipart, isDigitChar c = true := fun c hc =>
      paddedDigits_digits _ _ c (hif ▸ List.mem_append.mpr (Or.inl hc))
    have hfdig : ∀ c ∈ fpart, isDigitChar c = true := fun c hc =>
      paddedDigits_digits _ _ c (hif ▸ List.mem_append.mpr (Or.inr hc))
    have hine : ipart ≠ [] := by
      intro hh
      rw [hh] at hilen
      simp at hilen
    have hfne : fpart ≠ [] := by
      intro hh
      rw [hh] at hflen
      simp at hflen
      omega
    have hrd : renderDec m e =
        (if m < 0 then ['-'] else []) ++ ipart ++ '.' :: fpart := by
      rw [renderDec, if_neg he, ← hpdef, ← hidef, ← hfdef]
    have hfrac : parseFrac ('.' :: (fpart ++ rest)) = some (charsToNat fpart, e, rest) := by
      show (if ('.' : Char) = '.' then parseFracTail (fpart ++ rest)
            else some (0, 0, '.' :: (fpart ++ rest))) = _
      rw [if_pos rfl, parseFracTail_run _ _ hfne hfdig (numStop_headNotDigit hr), hflen]
    have hcore : ∀ b : Bool, parseNumCore b (ipart ++ '.' :: (fpart ++ rest)) =
        some (applyExp
          (if b then -((charsToNat ipart * 10 ^ e + charsToNat fpart : Nat) : Int)
           else ((charsToNat ipart * 10 ^ e + charsToNat fpart : Nat) : Int)) e 0, rest) :=
      fun b => parseNumCore_eq b _ _ hine hidig (by rfl) hfrac (parseExp_stop hr)
    have hmag : (charsToNat ipart * 10 ^ e + charsToNat fpart : Nat) = m.natAbs := by
      have := charsToNat_append ipart fpart
      rw [hif, hpdef, charsToNat_paddedDigits, hflen] at this
      omega
    have harr : renderDec m e ++ rest =
        (if m < 0 then ['-'] else []) ++ (ipart ++ '.' :: (fpart ++ rest)) := by
      rw [hrd]
      simp [List.append_assoc]
    by_cases hm : m < 0
    · rw [harr, if_pos hm]
      show (if ('-' : Char) = '-' then parseNumCore true (ipart ++ '.' :: (fpart ++ rest))
            else parseNumCore false ('-' :: (ipart ++ '.' :: (fpart ++ rest)))) = _
      rw [if_pos rfl, hcore true, applyExp_zero]
      have hv : -((charsToNat ipart * 10 ^ e + charsToNat fpart : Nat) : Int) = m := by
        rw [hmag]
        omega
      rw [hv]
      simp
    · rw [harr, if_neg hm]
      obtain ⟨c0, t0, h0⟩ : ∃ c0 t0, ipart = c0 :: t0 := by
        cases hh : ipart with
        | nil => exact absurd hh hine
        | cons c0 t0 => exact ⟨c0, t0, rfl⟩
      have hc0 : isDigitChar c0 = true := hidig c0 (h0 ▸ List.mem_cons_self ..)
      rw [List.nil_append, h0, List.cons_append]
      show (if c0 = '-' then parseNumCore true (t0 ++ '.' :: (fpart ++ rest))
            else parseNumCore false (c0 :: (t0 ++ '.' :: (fpart ++ rest)))) = _
      rw [if_neg (isDigitChar_props hc0).1, ← List.cons_append, ← h0, hcore false,
        applyExp_zero]
      have hv : ((charsToNat ipart * 10 ^ e + charsToNat fpart : Nat) : Int) = m := by
        rw [hmag]
        omega
      rw [hv]
      simp

/-! ## Lemmas: the string codec round-trip -/

theorem hexVal_hexDigitChar {n : Nat} (h : n < 16) : hexVal (hexDigitChar n) = some n := by
  interval_cases n <;> decide

theorem escapeChar_length_pos (c : Char) : 0 < (escapeChar c).length := by
  rw [escapeChar]
  repeat' split
  all_goals simp

theorem parseJStr_escape (c : Char) (r : Str) (fuel : Nat) :
    parseJStr (fuel + 1) (escapeChar c ++ r) =
      (parseJStr fuel r).map (fun p => (c :: p.1, p.2)) := by
  by_cases h1 : c = '"'
  · subst h1; rfl
  by_cases h2 : c = '\\'
  · subst h2; rfl
  by_cases h3 : c = Char.ofNat 8
  · subst h3; rfl
  by_cases h4 : c = Char.ofNat 9
  · subst h4; rfl
  by_cases h5 : c = Char.ofNat 10
  · subst h5; rfl
  by_cases h6 : c = Char.ofNat 12
  · subst h6; rfl
  by_cases h7 : c = Char.ofNat 13
  · subst h7; rfl
  by_cases h8 : c.toNat < 32
  · -- the \u00XX escape
    have hesc : escapeChar c =
        ['\\', 'u', '0', '0', hexDigitChar (c.toNat / 16), hexDigitChar (c.toNat % 16)] := by
      rw [escapeChar, if_neg h1, if_neg h2, if_neg h3, if_neg h4, if_neg h5, if_neg h6,
        if_neg h7, if_pos h8]
    rw [hesc]
    have step : parseJStr (fuel + 1)
        ('\\' :: 'u' :: '0' :: '0' :: hexDigitChar (c.toNat / 16) ::
          hexDigitChar (c.toNat % 16) :: r) =
        (match hexVal '0', hexVal '0', hexVal (hexDigitChar (c.toNat / 16)),
            hexVal (hexDigitChar (c.toNat % 16)) with
         | some va, some vb, some vc, some vd =>
           (parseJStr fuel r).map
             (fun p => (Char.ofNat (((va * 16 + vb) * 16 + vc) * 16 + vd) :: p.1, p.2))
         | _, _, _, _ => none) := rfl
    rw [show ('\\' :: 'u' :: '0' :: '0' :: hexDigitChar (c.toNat / 16) ::
          hexDigitChar (c.toNat % 16) :: []) ++ r
        = '\\' :: 'u' :: '0' :: '0' :: hexDigitChar (c.toNat / 16) ::
          hexDigitChar (c.toNat % 16) :: r from rfl, step,
      hexVal_hexDigitChar (show c.toNat / 16 < 16 by omega),
      hexVal_hexDigitChar (show c.toNat % 16 < 16 by omega)]
    show (parseJStr fuel r).map
        (fun p =>
          (Char.ofNat (((0 * 16 + 0) * 16 + c.toNat / 16) * 16 + c.toNat % 16) :: p.1,
           p.2)) = _
    have harith : ((0 * 16 + 0) * 16 + c.toNat / 16) * 16 + c.toNat % 16 = c.toNat := by
      omega
    rw [harith, Char.ofNat_toNat]
  · -- ordinary character, passed through verbatim
    have hesc : escapeChar c = [c] := by
      rw [escapeChar, if_neg h1, if_neg h2, if_neg h3, if_neg h4, if_neg h5, if_neg h6,
        if_neg h7, if_neg h8]
    rw [hesc]
    show (if c = '"' then some ([], r)
          else if c = '\\' then
            (match r with
             | 'u' :: a :: b :: c2 :: d :: cs2 =>
               match hexVal a, hexVal b, hexVal c2, hexVal d with
               | some va, some vb, some vc, some vd =>
                 (parseJStr fuel cs2).map
                   (fun p =>
                     (Char.ofNat (((va * 16 + vb) * 16 + vc) * 16 + vd) :: p.1, p.2))
               | _, _, _, _ => none
             | e :: cs2 =>
               match escDecode e with
               | some ch => (parseJStr fuel cs2).map (fun p => (ch :: p.1, p.2))
               | none => none
             | [] => none)
          else (parseJStr fuel r).map (fun p => (c :: p.1, p.2))) = _
    rw [if_neg h1, if_neg h2]

theorem parseJStr_render (s : Str) : ∀ (fuel : Nat) (rest : Str),
    (s.flatMap escapeChar).length < fuel →
    parseJStr fuel (s.flatMap escapeChar ++ '"' :: rest) = some (s, rest) := by
  induction s with
  | nil =>
    intro fuel rest hf
    cases fuel with
    | zero => omega
    | succ f => rfl
  | cons c t ih =>
    intro fuel rest hf
    rw [List.flatMap_cons, List.length_append] at hf
    have hc := escapeChar_length_pos c
    cases fuel with
    | zero => omega
    | succ f =>
      rw [List.flatMap_cons, List.append_assoc, parseJStr_escape,
        ih f rest (by omega)]
      rfl

/-! ## Lemmas: parsing rendered values -/

theorem skipWs_not_ws {c : Char} (t : Str) (h : isWsChar c = false) :
    skipWs (c :: t) = c :: t := by
  show (if isWsChar c then skipWs t else c :: t) = c :: t
  simp [h]

theorem numStop_comma (t : Str) : numStop (',' :: t) = true := rfl

theorem numStop_rbracket (t : Str) : numStop (']' :: t) = true := rfl

theorem numStop_rbrace (t : Str) : numStop ('}' :: t) = true := rfl

theorem renderDec_head (m : Int) (e : Nat) :
    ∃ c t, renderDec m e = c :: t ∧ (c = '-' ∨ isDigitChar c = true) := by
  by_cases hm : m < 0
  · refine ⟨'-',
      (paddedDigits m.natAbs (e + 1)).take ((paddedDigits m.natAbs (e + 1)).length - e) ++
      (if e = 0 then [] else
        '.' :: (paddedDigits m.natAbs (e + 1)).drop
          ((paddedDigits m.natAbs (e + 1)).length - e)), ?_, Or.inl rfl⟩
    rw [renderDec, if_pos hm]
    simp [List.append_assoc]
  · have hL : e + 1 ≤ (paddedDigits m.natAbs (e + 1)).length := le_length_paddedDigits _ _
    have hilen : 0 <
        ((paddedDigits m.natAbs (e + 1)).take
          ((paddedDigits m.natAbs (e + 1)).length - e)).length := by
      rw [List.length_take]
      omega
    obtain ⟨c0, t0, h0⟩ : ∃ c0 t0,
        (paddedDigits m.natAbs (e + 1)).take
          ((paddedDigits m.natAbs (e + 1)).length - e) = c0 :: t0 := by
      cases hh : (paddedDigits m.natAbs (e + 1)).take
          ((paddedDigits m.natAbs (e + 1)).length - e) with
      | nil => rw [hh] at hilen; simp at hilen
      | cons c0 t0 => exact ⟨c0, t0, rfl⟩
    have hc0 : isDigitChar c0 = true := by
      have hmem : c0 ∈ paddedDigits m.natAbs (e + 1) :=
        (List.take_sublist _ _).subset (h0 ▸ List.mem_cons_self ..)
      exact paddedDigits_digits _ _ _ hmem
    refine ⟨c0, t0 ++
      (if e = 0 then [] else
        '.' :: (paddedDigits m.natAbs (e + 1)).drop
          ((paddedDigits m.natAbs (e + 1)).length - e)), ?_, Or.inr hc0⟩
    rw [renderDec, if_neg hm, h0]
    simp [List.append_assoc]

theorem parseValue_toNum (fuel : Nat) (c : Char) (cs : Str)
    (hws : isWsChar c = false) (hq : c ≠ '"') (hlb : c ≠ '[') (hob : c ≠ '{')
    (hn : c ≠ 'n') (ht : c ≠ 't') (hf : c ≠ 'f') (hg : c = '-' ∨ isDigitChar c = true) :
    parseValue (fuel + 1) (c :: cs) =
      (parseNumber (c :: cs)).map (fun p => (Json.num p.1.1 p.1.2, p.2)) := by
  simp only [parseValue]
  rw [skipWs_not_ws cs hws]
  simp only [if_neg hq, if_neg hlb, if_neg hob, if_neg hn, if_neg ht, if_neg hf, if_pos hg]

theorem parseValue_renderDec (m : Int) (e : Nat) (fuel : Nat) (rest : Str)
    (hr : numStop rest = true) :
    parseValue (fuel + 1) (renderDec m e ++ rest) = some (Json.num m e, rest) := by
  obtain ⟨c, t, hct, hd⟩ := renderDec_head m e
  have hin : renderDec m e ++ rest = c :: (t ++ rest) := by rw [hct]; rfl
  have hnum : parseNumber (renderDec m e ++ rest) = some ((m, e), rest) :=
    parseNumber_renderDec m e rest hr
  rcases hd with rfl | hd
  · rw [hin, parseValue_toNum fuel '-' (t ++ rest) (by decide) (by decide) (by decide)
      (by decide) (by decide) (by decide) (by decide) (Or.inl rfl), ← hin, hnum]
    rfl
  · obtain ⟨hm1, _, _, _, hws, hq, hlb, _, hob, _, _, hn, ht', hf, _, _⟩ :=
      isDigitChar_props hd
    rw [hin, parseValue_toNum fuel c (t ++ rest) hws hq hlb hob hn ht' hf (Or.inr hd),
      ← hin, hnum]
    rfl

theorem parseValue_renderJStr (s : Str) (fuel : Nat) (rest : Str) :
    parseValue (fuel + 1) (renderJStr s ++ rest) = some (Json.str s, rest) := by
  have hin : renderJStr s ++ rest = '"' :: (s.flatMap escapeChar ++ '"' :: rest) := by
    rw [renderJStr]; simp [List.append_assoc]
  have step : parseValue (fuel + 1) ('"' :: (s.flatMap escapeChar ++ '"' :: rest)) =
      (parseJStr ((s.flatMap escapeChar ++ '"' :: rest).length + 1)
        (s.flatMap escapeChar ++ '"' :: rest)).map (fun r => (Json.str r.1, r.2)) := rfl
  rw [hin, step, parseJStr_render]
  · rfl
  · rw [List.length_append]
    omega

theorem parseValue_null (fuel : Nat) (rest : Str) :
    parseValue (fuel + 1) (['n', 'u', 'l', 'l'] ++ rest) = some (Json.null, rest) := rfl

theorem parseValue_strVal (s : Str) : ∀ (f : Nat) (rest : Str), 1 ≤ f →
    parseValue f (renderJStr s ++ rest) = some (Json.str s, rest) := by
  intro f rest hf
  cases f with
  | zero => omega
  | succ f2 => exact parseValue_renderJStr s f2 rest

theorem parseValue_jsnum (x : JSNum) : ∀ (f : Nat) (rest : Str), numStop rest = true →
    1 ≤ f → parseValue f (renderJSNum x ++ rest) = some (x.toJson, rest) := by
  intro f rest hr hf
  cases f with
  | zero => omega
  | succ f2 =>
    cases x with
    | finite m e => exact parseValue_renderDec m e f2 rest hr
    | nan => exact parseValue_null f2 rest
    | posInf => exact parseValue_null f2 rest
    | negInf => exact parseValue_null f2 rest

/-! ## Lemmas: parsing rendered member and element chains -/

/-- Rendered object members: each triple carries the key, the rendered
value text, and the value's JSON reading. -/
def rPairs : List (Str × Str × Json) → Str
  | [] => []
  | [m] => renderJStr m.1 ++ ':' :: m.2.1
  | m :: m2 :: t => renderJStr m.1 ++ ':' :: (m.2.1 ++ ',' :: rPairs (m2 :: t))

/-- Rendered array elements: rendered text plus JSON reading. -/
def rItems : List (Str × Json) → Str
  | [] => []
  | [m] => m.1
  | m :: m2 :: t => m.1 ++ ',' :: rItems (m2 :: t)

theorem parsePairs_step (f : Nat) (k : Str) (v rest2 : Str) :
    parsePairs (f + 1) (renderJStr k ++ ':' :: (v ++ rest2)) =
      (match parseValue f (v ++ rest2) with
       | none => none
       | some (val, r3) =>
         match skipWs r3 with
         | ',' :: r4 => (parsePairs f r4).map (fun p => ((k, val) :: p.1, p.2))
         | '}' :: r4 => some ([(k, val)], r4)
         | _ => none) := by
  have hin : renderJStr k ++ ':' :: (v ++ rest2) =
      '"' :: (k.flatMap escapeChar ++ '"' :: (':' :: (v ++ rest2))) := by
    rw [renderJStr]; simp [List.append_assoc]
  have step : parsePairs (f + 1)
      ('"' :: (k.flatMap escapeChar ++ '"' :: (':' :: (v ++ rest2)))) =
      (match parseJStr ((k.flatMap escapeChar ++ '"' :: (':' :: (v ++ rest2))).length + 1)
          (k.flatMap escapeChar ++ '"' :: (':' :: (v ++ rest2))) with
       | none => none
       | some (key, r1) =>
         match skipWs r1 with
         | ':' :: r2 =>
           (match parseValue f r2 with
            | none => none
            | some (val, r3) =>
              match skipWs r3 with
              | ',' :: r4 => (parsePairs f r4).map (fun p => ((key, val) :: p.1, p.2))
              | '}' :: r4 => some ([(key, val)], r4)
              | _ => none)
         | _ => none) := rfl
  rw [hin, step, parseJStr_render]
  · rfl
  · rw [List.length_append]
    omega

theorem parsePairs_rPairs (bound : Nat) :
    ∀ (ms : List (Str × Str × Json)), ms ≠ [] →
    (∀ m ∈ ms, ∀ (f : Nat) (rest' : Str), numStop rest' = true → bound ≤ f →
      parseValue f (m.2.1 ++ rest') = some (m.2.2, rest')) →
    ∀ (fuel : Nat) (rest : Str), bound + ms.length + 1 ≤ fuel →
    parsePairs fuel (rPairs ms ++ '}' :: rest) =
      some (ms.map (fun m => (m.1, m.2.2)), rest) := by
  intro ms
  induction ms with
  | nil => intro h; exact absurd rfl h
  | cons m ms ih =>
    intro _ hvals fuel rest hfuel
    cases fuel with
    | zero => omega
    | succ f =>
      cases ms with
      | nil =>
        have hone : rPairs [m] ++ '}' :: rest =
            renderJStr m.1 ++ ':' :: (m.2.1 ++ '}' :: rest) := by
          rw [rPairs]; simp [List.append_assoc]
        rw [hone, parsePairs_step f m.1 m.2.1 ('}' :: rest),
          hvals m (List.mem_cons_self ..) f ('}' :: rest) (numStop_rbrace rest) (by omega)]
        rfl
      | cons m2 t =>
        have hsplit : rPairs (m :: m2 :: t) ++ '}' :: rest =
            renderJStr m.1 ++ ':' :: (m.2.1 ++ ',' :: (rPairs (m2 :: t) ++ '}' :: rest)) := by
          rw [rPairs]; simp [List.append_assoc]
        rw [hsplit, parsePairs_step f m.1 m.2.1 (',' :: (rPairs (m2 :: t) ++ '}' :: rest)),
          hvals m (List.mem_cons_self ..) f _ (numStop_comma _) (by omega)]
        have hrec := ih (List.cons_ne_nil _ _)
          (fun x hx => hvals x (List.mem_cons_of_mem _ hx)) f rest
          (by simp at hfuel ⊢; omega)
        simp only [show skipWs (',' :: (rPairs (m2 :: t) ++ '}' :: rest)) =
            ',' :: (rPairs (m2 :: t) ++ '}' :: rest) from rfl, hrec]
        rfl

theorem parseItems_rItems (bound : Nat) :
    ∀ (ms : List (Str × Json)), ms ≠ [] →
    (∀ m ∈ ms, ∀ (f : Nat) (rest' : Str), numStop rest' = true → bound ≤ f →
      parseValue f (m.1 ++ rest') = some (m.2, rest')) →
    ∀ (fuel : Nat) (rest : Str), bound + ms.length + 1 ≤ fuel →
    parseItems fuel (rItems ms ++ ']' :: rest) = some (ms.map (fun m => m.2), rest) := by
  intro ms
  induction ms with
  | nil => intro h; exact absurd rfl h
  | cons m ms ih =>
    intro _ hvals fuel rest hfuel
    cases fuel with
    | zero => omega
    | succ f =>
      cases ms with
      | nil =>
        have hone : rItems [m] ++ ']' :: rest = m.1 ++ ']' :: rest := by
          rw [rItems]
        show (match parseValue f (rItems [m] ++ ']' :: rest) with
              | none => none
              | some (v, r) =>
                match skipWs r with
                | ',' :: r2 => (parseItems f r2).map (fun p : List Json × Str => (v :: p.1, p.2))
                | ']' :: r2 => some ([v], r2)
                | _ => none) = _
        rw [hone, hvals m (List.mem_cons_self ..) f (']' :: rest) (numStop_rbracket rest)
          (by omega)]
        rfl
      | cons m2 t =>
        have hsplit : rItems (m :: m2 :: t) ++ ']' :: rest =
            m.1 ++ ',' :: (rItems (m2 :: t) ++ ']' :: rest) := by
          rw [rItems]; simp [List.append_assoc]
        show (match parseValue f (rItems (m :: m2 :: t) ++ ']' :: rest) with
              | none => none
              | some (v, r) =>
                match skipWs r with
                | ',' :: r2 => (parseItems f r2).map (fun p : List Json × Str => (v :: p.1, p.2))
                | ']' :: r2 => some ([v], r2)
                | _ => none) = _
        rw [hsplit, hvals m (List.mem_cons_self ..) f _ (numStop_comma _) (by omega)]
        have hrec := ih (List.cons_ne_nil _ _)
          (fun x hx => hvals x (List.mem_cons_of_mem _ hx)) f rest
          (by simp at hfuel ⊢; omega)
        simp only [show skipWs (',' :: (rItems (m2 :: t) ++ ']' :: rest)) =
            ',' :: (rItems (m2 :: t) ++ ']' :: rest) from rfl, hrec]
        rfl

/-! ## Lemmas: parsing the rendered history -/

theorem rPairs_cons_head (m : Str × Str × Json) (ms : List (Str × Str × Json)) :
    ∃ t, rPairs (m :: ms) = '"' :: t := by
  cases ms with
  | nil => exact ⟨(m.1.flatMap escapeChar ++ ['"']) ++ ':' :: m.2.1, rfl⟩
  | cons m2 tl =>
    exact ⟨(m.1.flatMap escapeChar ++ ['"']) ++ ':' :: (m.2.1 ++ ',' :: rPairs (m2 :: tl)),
      rfl⟩

/-- Unfolds `parseValue` at an object whose member text starts with a
key's quote. -/
theorem parseValue_objStep (f : Nat) (body rest : Str) (c0 : Str)
    (hb : body = '"' :: c0) :
    parseValue (f + 1) ('{' :: (body ++ '}' :: rest)) =
      (parsePairs f (body ++ '}' :: rest)).map (fun p => (Json.obj p.1, p.2)) := by
  subst hb
  rfl

/-- Unfolds `parseValue` at an array whose element text starts with a
record's brace. -/
theorem parseValue_arrStep (f : Nat) (body rest : Str) (c0 : Str)
    (hb : body = '{' :: c0) :
    parseValue (f + 1) ('[' :: (body ++ ']' :: rest)) =
      (parseItems f (body ++ ']' :: rest)).map (fun p => (Json.arr p.1, p.2)) := by
  subst hb
  rfl

/-- The member triples of a rendered `PredictionParams` object. -/
def paramsTriples (p : PredictionParams) : List (Str × Str × Json) :=
  [(fSubstrateType, renderJStr p.substrateType, Json.str p.substrateType),
   (fMetalChalcogenRatio, renderJSNum p.metalChalcogenRatio, p.metalChalcogenRatio.toJson),
   (fHArRatio, renderJSNum p.hArRatio, p.hArRatio.toJson),
   (fPressureType, renderJStr p.pressureType, Json.str p.pressureType),
   (fMetalTemperature, renderJSNum p.metalTemperature, p.metalTemperature.toJson),
   (fChalcogenTemperature, renderJSNum p.chalcogenTemperature,
     p.chalcogenTemperature.toJson),
   (fSubstratePosition, renderJStr p.substratePosition, Json.str p.substratePosition),
   (fReactionTime, renderJSNum p.reactionTime, p.reactionTime.toJson),
   (fSaltAddition, renderJStr p.saltAddition, Json.str p.saltAddition)]

theorem renderParams_eq (p : PredictionParams) :
    renderParams p = '{' :: (rPairs (paramsTriples p) ++ ['}']) := by
  rw [renderParams, paramsTriples]
  simp [rPairs, List.append_assoc]

theorem paramsTriples_vals (p : PredictionParams) :
    ∀ m ∈ paramsTriples p, ∀ (f : Nat) (rest' : Str), numStop rest' = true → 1 ≤ f →
      parseValue f (m.2.1 ++ rest') = some (m.2.2, rest') := by
  intro m hm f rest' hr hf
  rw [paramsTriples] at hm
  fin_cases hm <;>
    first
      | exact parseValue_strVal _ f rest' hf
      | exact parseValue_jsnum _ f rest' hr hf

theorem parseValue_renderParams (p : PredictionParams) :
    ∀ (f : Nat) (rest' : Str), numStop rest' = true → 12 ≤ f →
    parseValue f (renderParams p ++ rest') = some (paramsToJson p, rest') := by
  intro f rest' hr hf
  cases f with
  | zero => omega
  | succ f2 =>
    obtain ⟨t0, ht0⟩ := rPairs_cons_head
      (fSubstrateType, renderJStr p.substrateType, Json.str p.substrateType)
      (paramsTriples p).tail
    have hshape : paramsTriples p =
        (fSubstrateType, renderJStr p.substrateType, Json.str p.substrateType) ::
          (paramsTriples p).tail := rfl
    have hin : renderParams p ++ rest' =
        '{' :: (rPairs (paramsTriples p) ++ '}' :: rest') := by
      rw [renderParams_eq]
      simp [List.append_assoc]
    rw [hin, parseValue_objStep f2 _ rest' t0 (by rw [hshape] at ht0 ⊢; exact ht0),
      parsePairs_rPairs 1 (paramsTriples p) (by rw [paramsTriples]; simp)
        (paramsTriples_vals p) (f2) rest' (by rw [paramsTriples]; simp; omega)]
    rfl

/-- The member triples of a rendered `PredictionRecord` object. -/
def recordTriples (r : PredictionRecord) : List (Str × Str × Json) :=
  [(fId, renderJStr r.id, Json.str r.id),
   (fMaterial, renderJStr r.material, Json.str r.material),
   (fParams, renderParams r.params, paramsToJson r.params),
   (fPrediction, renderJStr r.prediction, Json.str r.prediction),
   (fTimestamp, renderJStr r.timestamp, Json.str r.timestamp)] ++
  (match r.remarks with
   | some t => [(fRemarks, renderJStr t, Json.str t)]
   | none => [])

theorem renderRecord_eq (r : PredictionRecord) :
    renderRecord r = '{' :: (rPairs (recordTriples r) ++ ['}']) := by
  cases hrem : r.remarks with
  | none =>
    rw [renderRecord, recordTriples, hrem]
    simp [rPairs, List.append_assoc]
  | some t =>
    rw [renderRecord, recordTriples, hrem]
    simp [rPairs, List.append_assoc]

theorem recordTriples_len (r : PredictionRecord) :
    (recordTriples r).length = 5 ∨ (recordTriples r).length = 6 := by
  rw [recordTriples]
  cases r.remarks with
  | none => left; rfl
  | some t => right; rfl

theorem recordTriples_map (r : PredictionRecord) :
    Json.obj ((recordTriples r).map (fun m => (m.1, m.2.2))) = recordToJson r := by
  cases hrem : r.remarks with
  | none => rw [recordToJson, recordTriples, hrem]; rfl
  | some t => rw [recordToJson, recordTriples, hrem]; rfl

theorem recordTriples_vals (r : PredictionRecord) :
    ∀ m ∈ recordTriples r, ∀ (f : Nat) (rest' : Str), numStop rest' = true → 12 ≤ f →
      parseValue f (m.2.1 ++ rest') = some (m.2.2, rest') := by
  intro m hm f rest' hr hf
  have h1 : 1 ≤ f := by omega
  rw [recordTriples] at hm
  cases hrem : r.remarks with
  | none =>
    rw [hrem] at hm
    simp only [List.append_nil, List.mem_cons, List.not_mem_nil, or_false] at hm
    rcases hm with rfl | rfl | rfl | rfl | rfl
    · exact parseValue_strVal _ f rest' h1
    · exact parseValue_strVal _ f rest' h1
    · exact parseValue_renderParams r.params f rest' hr hf
    · exact parseValue_strVal _ f rest' h1
    · exact parseValue_strVal _ f rest' h1
  | some t =>
    rw [hrem] at hm
    simp only [List.mem_append, List.mem_cons, List.not_mem_nil, or_false] at hm
    rcases hm with (rfl | rfl | rfl | rfl | rfl) | rfl
    · exact parseValue_strVal _ f rest' h1
    · exact parseValue_strVal _ f rest' h1
    · exact parseValue_renderParams r.params f rest' hr hf
    · exact parseValue_strVal _ f rest' h1
    · exact parseValue_strVal _ f rest' h1
    · exact parseValue_strVal _ f rest' h1

theorem parseValue_renderRecord (r : PredictionRecord) :
    ∀ (f : Nat) (rest' : Str), numStop rest' = true → 20 ≤ f →
    parseValue f (renderRecord r ++ rest') = some (recordToJson r, rest') := by
  intro f rest' hr hf
  cases f with
  | zero => omega
  | succ f2 =>
    obtain ⟨t0, ht0⟩ := rPairs_cons_head (fId, renderJStr r.id, Json.str r.id)
      (recordTriples r).tail
    have hshape : recordTriples r =
        (fId, renderJStr r.id, Json.str r.id) :: (recordTriples r).tail := rfl
    have hin : renderRecord r ++ rest' =
        '{' :: (rPairs (recordTriples r) ++ '}' :: rest') := by
      rw [renderRecord_eq]
      simp [List.append_assoc]
    rw [hin, parseValue_objStep f2 _ rest' t0 (by rw [hshape] at ht0 ⊢; exact ht0),
      parsePairs_rPairs 12 (recordTriples r) (by rw [hshape]; simp)
        (recordTriples_vals r) f2 rest'
        (by rcases recordTriples_len r with hl | hl <;> rw [hl] <;> omega)]
    show some ((Json.obj ((recordTriples r).map (fun m => (m.1, m.2.2))) : Json), rest')
          = some (recordToJson r, rest')
    rw [recordTriples_map]

/-- The element pairs of the rendered history array. -/
def historyTriples (h : List PredictionRecord) : List (Str × Json) :=
  h.map (fun r => (renderRecord r, recordToJson r))

theorem renderRecords_eq (h : List PredictionRecord) :
    renderRecords h = rItems (historyTriples h) := by
  induction h with
  | nil => rfl
  | cons r t ih =>
    cases t with
    | nil => rfl
    | cons r2 t2 =>
      rw [renderRecords, historyTriples, List.map_cons]
      rw [historyTriples] at ih
      rw [show rItems ((renderRecord r, recordToJson r) ::
            (r2 :: t2).map (fun x => (renderRecord x, recordToJson x))) =
          renderRecord r ++ ',' :: rItems ((r2 :: t2).map
            (fun x => (renderRecord x, recordToJson x))) from rfl, ← ih]
      simp [List.append_assoc]

theorem historyTriples_vals (h : List PredictionRecord) :
    ∀ m ∈ historyTriples h, ∀ (f : Nat) (rest' : Str), numStop rest' = true → 20 ≤ f →
      parseValue f (m.1 ++ rest') = some (m.2, rest') := by
  intro m hm f rest' hr hf
  rw [historyTriples] at hm
  obtain ⟨r, _, rfl⟩ := List.mem_map.mp hm
  exact parseValue_renderRecord r f rest' hr hf

theorem renderRecord_head (r : PredictionRecord) :
    ∃ t, renderRecord r = '{' :: t := by
  refine ⟨rPairs (recordTriples r) ++ ['}'], ?_⟩
  rw [renderRecord_eq]

theorem parseValue_stringifyHistory (h : List PredictionRecord) :
    ∀ (f : Nat) (rest' : Str), 23 + h.length ≤ f →
    parseValue f (stringifyHistory h ++ rest') = some (historyToJson h, rest') := by
  intro f rest' hf
  cases h with
  | nil =>
    cases f with
    | zero => omega
    | succ f2 => rfl
  | cons r t =>
    cases f with
    | zero => omega
    | succ f2 =>
      obtain ⟨u, hu⟩ : ∃ u, renderRecords (r :: t) = '{' :: u := by
        obtain ⟨c0, hc0⟩ := renderRecord_head r
        cases t with
        | nil => exact ⟨c0, by rw [renderRecords, hc0]⟩
        | cons r2 t2 =>
          exact ⟨c0 ++ [','] ++ renderRecords (r2 :: t2), by
            rw [renderRecords, hc0]
            simp [List.append_assoc]⟩
      have hin : stringifyHistory (r :: t) ++ rest' =
          '[' :: (renderRecords (r :: t) ++ ']' :: rest') := by
        rw [stringifyHistory]
        simp [List.append_assoc]
      rw [hin, parseValue_arrStep f2 _ rest' u hu, renderRecords_eq,
        parseItems_rItems 20 (historyTriples (r :: t))
          (by rw [historyTriples, List.map_cons]; exact List.cons_ne_nil _ _)
          (historyTriples_vals _) f2 rest'
          (by
            simp only [List.length_cons] at hf
            rw [historyTriples]
            simp only [List.length_map, List.length_cons]
            omega)]
      rw [show ((historyTriples (r :: t)).map (fun m => m.2)) =
            (r :: t).map recordToJson by
          rw [historyTriples]; simp [List.map_map]]
      rfl

/-! ## Lemmas: serialized length bounds and the top-level parse of a
serialized history -/

theorem renderRecord_len (r : PredictionRecord) : 21 ≤ (renderRecord r).length := by
  cases hrem : r.remarks with
  | none =>
    rw [renderRecord, hrem]
    simp only [List.length_append, List.length_cons, List.length_nil,
      show (renderJStr fId).length = 4 from rfl,
      show (renderJStr fMaterial).length = 10 from rfl,
      show (renderJStr fParams).length = 8 from rfl,
      show (renderJStr fPrediction).length = 12 from rfl,
      show (renderJStr fTimestamp).length = 11 from rfl]
    omega
  | some t =>
    rw [renderRecord, hrem]
    simp only [List.length_append, List.length_cons, List.length_nil,
      show (renderJStr fId).length = 4 from rfl,
      show (renderJStr fMaterial).length = 10 from rfl,
      show (renderJStr fParams).length = 8 from rfl,
      show (renderJStr fPrediction).length = 12 from rfl,
      show (renderJStr fTimestamp).length = 11 from rfl,
      show (renderJStr fRemarks).length = 9 from rfl]
    omega

theorem renderRecords_len : ∀ (t : List PredictionRecord) (r : PredictionRecord),
    21 + t.length ≤ (renderRecords (r :: t)).length := by
  intro t
  induction t with
  | nil =>
    intro r
    simpa using renderRecord_len r
  | cons r2 t2 ih =>
    intro r
    rw [renderRecords]
    simp only [List.length_append, List.length_cons, List.length_nil]
    have h1 := renderRecord_len r
    have h2 := ih r2
    omega

/-- The serialized history always starts with `'['`. -/
theorem stringifyHistory_head (h : List PredictionRecord) :
    ∃ t, stringifyHistory h = '[' :: t := by
  cases h with
  | nil => exact ⟨[']'], rfl⟩
  | cons r t => exact ⟨renderRecords (r :: t) ++ [']'], rfl⟩

/-- `JSON.parse` inverts `JSON.stringify` on a serialized history. -/
theorem jsonParse_stringifyHistory (h : List PredictionRecord) :
    jsonParse (stringifyHistory h) = some (historyToJson h) := by
  cases h with
  | nil => rfl
  | cons r t =>
    rw [jsonParse]
    have hb : 23 + (r :: t).length ≤ (stringifyHistory (r :: t)).length + 1 := by
      rw [stringifyHistory]
      simp only [List.length_append, List.length_cons, List.length_nil]
      have := renderRecords_len t r
      omega
    have hp := parseValue_stringifyHistory (r :: t)
      ((stringifyHistory (r :: t)).length + 1) [] hb
    rw [List.append_nil] at hp
    rw [hp]
    rfl

/-! ## Lemmas: structural decoding inverts the JSON image -/

theorem jsFinite_finite {n : JSNum} (h : n.jsFinite = true) :
    ∃ m e, n = JSNum.finite m e := by
  cases n with
  | finite m e => exact ⟨m, e, rfl⟩
  | nan => exact absurd h (by decide)
  | posInf => exact absurd h (by decide)
  | negInf => exact absurd h (by decide)

theorem fromJsonParams_roundtrip (p : PredictionParams)
    (hc : paramsClean p = true) : fromJsonParams (paramsToJson p) = some p := by
  obtain ⟨st, mcr, har, pt, mt, ct, sp, rt, sa⟩ := p
  simp only [paramsClean, Bool.and_eq_true] at hc
  obtain ⟨⟨⟨⟨⟨⟨⟨⟨-, -⟩, -⟩, -⟩, h5⟩, h6⟩, h7⟩, h8⟩, h9⟩ := hc
  obtain ⟨m1, e1, rfl⟩ := jsFinite_finite h5
  obtain ⟨m2, e2, rfl⟩ := jsFinite_finite h6
  obtain ⟨m3, e3, rfl⟩ := jsFinite_finite h7
  obtain ⟨m4, e4, rfl⟩ := jsFinite_finite h8
  obtain ⟨m5, e5, rfl⟩ := jsFinite_finite h9
  rfl

theorem fromJsonRecord_roundtrip (r : PredictionRecord)
    (hc : recordClean r = true) : fromJsonRecord (recordToJson r) = some r := by
  obtain ⟨i, mat, p, prd, ts, rem⟩ := r
  simp only [recordClean, Bool.and_eq_true] at hc
  obtain ⟨⟨⟨⟨⟨-, -⟩, hp⟩, -⟩, -⟩, -⟩ := hc
  obtain ⟨st, mcr, har, pt, mt, ct, sp, rt, sa⟩ := p
  simp only [paramsClean, Bool.and_eq_true] at hp
  obtain ⟨⟨⟨⟨⟨⟨⟨⟨-, -⟩, -⟩, -⟩, h5⟩, h6⟩, h7⟩, h8⟩, h9⟩ := hp
  obtain ⟨m1, e1, rfl⟩ := jsFinite_finite h5
  obtain ⟨m2, e2, rfl⟩ := jsFinite_finite h6
  obtain ⟨m3, e3, rfl⟩ := jsFinite_finite h7
  obtain ⟨m4, e4, rfl⟩ := jsFinite_finite h8
  obtain ⟨m5, e5, rfl⟩ := jsFinite_finite h9
  cases rem with
  | none => rfl
  | some t => rfl

theorem fromJsonHistory_roundtrip : ∀ (h : List PredictionRecord),
    historyClean h = true → fromJsonHistory (historyToJson h) = some h := by
  intro h
  induction h with
  | nil => intro _; rfl
  | cons r t ih =>
    intro hc
    simp only [historyClean, List.all_cons, Bool.and_eq_true] at hc
    have h2 : (t.map recordToJson).mapM fromJsonRecord = some t := ih hc.2
    show ((r :: t).map recordToJson).mapM fromJsonRecord = some (r :: t)
    rw [List.map_cons, List.mapM_cons, fromJsonRecord_roundtrip r hc.1, h2]
    rfl

/-! ## Lemmas: a `';'`-free serialization survives the cookie write -/

theorem hexDigitChar_ne_semi {n : Nat} (h : n < 16) : hexDigitChar n ≠ ';' := by
  interval_cases n <;> decide

theorem semi_notin_escapeChar {c : Char} (hc : c ≠ ';') : ';' ∉ escapeChar c := by
  rw [escapeChar]
  split_ifs with h1 h2 h3 h4 h5 h6 h7 h8
  · decide
  · decide
  · decide
  · decide
  · decide
  · decide
  · decide
  · intro hm
    simp only [List.mem_cons, List.not_mem_nil, or_false] at hm
    rcases hm with h | h | h | h | h | h
    · exact absurd h.symm (by decide)
    · exact absurd h.symm (by decide)
    · exact absurd h.symm (by decide)
    · exact absurd h.symm (by decide)
    · exact hexDigitChar_ne_semi (by omega) h.symm
    · exact hexDigitChar_ne_semi (Nat.mod_lt _ (by omega)) h.symm
  · intro hm
    simp only [List.mem_cons, List.not_mem_nil, or_false] at hm
    exact hc hm.symm

theorem semi_notin_renderJStr {s : Str} (hs : strClean s = true) :
    ';' ∉ renderJStr s := by
  rw [renderJStr]
  intro hm
  simp only [List.mem_cons, List.mem_append, List.not_mem_nil, or_false] at hm
  rcases hm with h | h | h
  · exact absurd h (by decide)
  · obtain ⟨a, ha, hsemi⟩ := List.mem_flatMap.mp h
    have : (a != ';') = true := List.all_eq_true.mp hs a ha
    exact semi_notin_escapeChar (by simpa using this) hsemi
  · exact absurd h (by decide)

theorem semi_notin_digits {c : Char} (h : isDigitChar c = true) : c ≠ ';' := by
  simp only [isDigitChar, decide_eq_true_eq] at h
  exact @digit_ne c ';' h.1 h.2 (by decide)

theorem semi_notin_renderDec (m : Int) (e : Nat) : ';' ∉ renderDec m e := by
  rw [renderDec]
  intro hm
  simp only [List.mem_append, List.mem_cons, List.not_mem_nil, or_false] at hm
  rcases hm with (h | h) | h
  · split at h
    · simp only [List.mem_cons, List.not_mem_nil, or_false] at h
      exact absurd h (by decide)
    · exact absurd h (List.not_mem_nil _)
  · have hp := List.mem_of_mem_take h
    exact semi_notin_digits (paddedDigits_digits _ _ _ hp) rfl
  · split at h
    · exact absurd h (List.not_mem_nil _)
    · simp only [List.mem_cons] at h
      rcases h with h | h
      · exact absurd h (by decide)
      · have hp := List.mem_of_mem_drop h
        exact semi_notin_digits (paddedDigits_digits _ _ _ hp) rfl

theorem semi_notin_renderJSNum (n : JSNum) : ';' ∉ renderJSNum n := by
  cases n with
  | finite m e => exact semi_notin_renderDec m e
  | nan => decide
  | posInf => decide
  | negInf => decide

theorem semi_notin_append {a b : Str} (ha : ';' ∉ a) (hb : ';' ∉ b) :
    ';' ∉ a ++ b := by
  intro hm
  rcases List.mem_append.mp hm with h | h
  · exact ha h
  · exact hb h

theorem semi_notin_renderParams {p : PredictionParams}
    (hp : paramsClean p = true) : ';' ∉ renderParams p := by
  simp only [paramsClean, Bool.and_eq_true] at hp
  obtain ⟨⟨⟨⟨⟨⟨⟨⟨h1, h2⟩, h3⟩, h4⟩, -⟩, -⟩, -⟩, -⟩, -⟩ := hp
  rw [renderParams]
  repeat apply semi_notin_append
  all_goals first
    | decide
    | exact semi_notin_renderJStr (by decide)
    | exact semi_notin_renderJStr h1
    | exact semi_notin_renderJStr h2
    | exact semi_notin_renderJStr h3
    | exact semi_notin_renderJStr h4
    | exact semi_notin_renderJSNum _

theorem semi_notin_rPairs : ∀ (ms : List (Str × Str × Json)),
    (∀ m ∈ ms, ';' ∉ renderJStr m.1 ∧ ';' ∉ m.2.1) → ';' ∉ rPairs ms := by
  intro ms
  induction ms with
  | nil => intro _ hm; exact List.not_mem_nil _ hm
  | cons m ms ih =>
    intro hv
    cases ms with
    | nil =>
      rw [rPairs]
      intro hm
      rcases List.mem_append.mp hm with h | h
      · exact (hv m (List.mem_cons_self ..)).1 h
      · rcases List.mem_cons.mp h with h | h
        · exact absurd h (by decide)
        · exact (hv m (List.mem_cons_self ..)).2 h
    | cons m2 t =>
      rw [rPairs]
      intro hm
      rcases List.mem_append.mp hm with h | h
      · exact (hv m (List.mem_cons_self ..)).1 h
      · rcases List.mem_cons.mp h with h | h
        · exact absurd h (by decide)
        · rcases List.mem_append.mp h with h | h
          · exact (hv m (List.mem_cons_self ..)).2 h
          · rcases List.mem_cons.mp h with h | h
            · exact absurd h (by decide)
            · exact ih (fun x hx => hv x (List.mem_cons_of_mem _ hx)) h

theorem recordTriples_semi_free {r : PredictionRecord}
    (hr : recordClean r = true) :
    ∀ m ∈ recordTriples r, ';' ∉ renderJStr m.1 ∧ ';' ∉ m.2.1 := by
  simp only [recordClean, Bool.and_eq_true] at hr
  obtain ⟨⟨⟨⟨⟨h1, h2⟩, hp⟩, h3⟩, h4⟩, h5⟩ := hr
  intro m hm
  rw [recordTriples] at hm
  cases hrem : r.remarks with
  | none =>
    rw [hrem] at hm
    simp only [List.append_nil, List.mem_cons, List.not_mem_nil, or_false] at hm
    rcases hm with rfl | rfl | rfl | rfl | rfl
    · exact ⟨@semi_notin_renderJStr fId (by decide), @semi_notin_renderJStr r.id h1⟩
    · exact ⟨@semi_notin_renderJStr fMaterial (by decide),
        @semi_notin_renderJStr r.material h2⟩
    · exact ⟨@semi_notin_renderJStr fParams (by decide),
        @semi_notin_renderParams r.params hp⟩
    · exact ⟨@semi_notin_renderJStr fPrediction (by decide),
        @semi_notin_renderJStr r.prediction h3⟩
    · exact ⟨@semi_notin_renderJStr fTimestamp (by decide),
        @semi_notin_renderJStr r.timestamp h4⟩
  | some t =>
    rw [hrem] at hm h5
    simp only [List.mem_append, List.mem_cons, List.not_mem_nil, or_false] at hm
    rcases hm with (rfl | rfl | rfl | rfl | rfl) | rfl
    · exact ⟨@semi_notin_renderJStr fId (by decide), @semi_notin_renderJStr r.id h1⟩
    · exact ⟨@semi_notin_renderJStr fMaterial (by decide),
        @semi_notin_renderJStr r.material h2⟩
    · exact ⟨@semi_notin_renderJStr fParams (by decide),
        @semi_notin_renderParams r.params hp⟩
    · exact ⟨@semi_notin_renderJStr fPrediction (by decide),
        @semi_notin_renderJStr r.prediction h3⟩
    · exact ⟨@semi_notin_renderJStr fTimestamp (by decide),
        @semi_notin_renderJStr r.timestamp h4⟩
    · exact ⟨@semi_notin_renderJStr fRemarks (by decide), @semi_notin_renderJStr t h5⟩

theorem semi_notin_renderRecord {r : PredictionRecord}
    (hr : recordClean r = true) : ';' ∉ renderRecord r := by
  rw [renderRecord_eq]
  intro hm
  rcases List.mem_cons.mp hm with h | h
  · exact absurd h (by decide)
  · rcases List.mem_append.mp h with h | h
    · exact semi_notin_rPairs (recordTriples r) (recordTriples_semi_free hr) h
    · exact absurd h (by decide)

theorem semi_notin_renderRecords : ∀ (h : List PredictionRecord),
    historyClean h = true → ';' ∉ renderRecords h := by
  intro h
  induction h with
  | nil => intro _ hm; exact List.not_mem_nil _ hm
  | cons r t ih =>
    intro hc
    simp only [historyClean, List.all_cons, Bool.and_eq_true] at hc
    cases t with
    | nil => exact semi_notin_renderRecord hc.1
    | cons r2 t2 =>
      rw [renderRecords]
      refine semi_notin_append (semi_notin_append ?_ ?_) ?_
      · exact semi_notin_renderRecord hc.1
      · decide
      · exact ih hc.2

theorem semi_notin_stringifyHistory {h : List PredictionRecord}
    (hc : historyClean h = true) : ';' ∉ stringifyHistory h := by
  cases h with
  | nil => decide
  | cons r t =>
    rw [stringifyHistory]
    refine semi_notin_append (semi_notin_append ?_ ?_) ?_
    · decide
    · exact semi_notin_renderRecords (r :: t) hc
    · decide

/-- The cookie write keeps a `';'`-free serialized history intact. -/
theorem cookieStoredValue_clean {h : List PredictionRecord}
    (hc : historyClean h = true) :
    cookieStoredValue (stringifyHistory h) = stringifyHistory h := by
  rw [cookieStoredValue]
  rw [List.takeWhile_eq_self_iff]
  intro a ha
  have : a ≠ ';' := by
    intro he
    rw [he] at ha
    exact semi_notin_stringifyHistory hc ha
  simpa using this

/-- Reloading a cleanly serialized history parses it back verbatim. -/
theorem loadHistory_clean {h : List PredictionRecord}
    (hc : historyClean h = true) :
    loadHistory (some (cookieStoredValue (stringifyHistory h))) =
      (LoadOutcome.stored (historyToJson h), false) := by
  rw [cookieStoredValue_clean hc, loadHistory]
  obtain ⟨t0, ht0⟩ := stringifyHistory_head h
  have hget : getCookieVal (some (stringifyHistory h)) = some (stringifyHistory h) := by
    rw [getCookieVal]
    have htw : (stringifyHistory h).takeWhile (fun c => c != ';') = stringifyHistory h := by
      rw [List.takeWhile_eq_self_iff]
      intro a ha
      have : a ≠ ';' := by
        intro he
        rw [he] at ha
        exact semi_notin_stringifyHistory hc ha
      simpa using this
    rw [htw, ht0]
  rw [hget]
  show (match jsonParse (stringifyHistory h) with
        | some j => (LoadOutcome.stored j, false)
        | none => (LoadOutcome.initial, true)) =
      (LoadOutcome.stored (historyToJson h), false)
  rw [jsonParse_stringifyHistory h]

/-! ## Lemmas: store operations preserve cleanliness -/

theorem recordClean_setRemark {r : PredictionRecord} {i t : Str}
    (hr : recordClean r = true) (ht : strClean t = true) :
    recordClean (if r.id == i then
      (⟨r.id, r.material, r.params, r.prediction, r.timestamp, some t⟩ : PredictionRecord)
      else r) = true := by
  split
  · simp only [recordClean, Bool.and_eq_true] at hr ⊢
    obtain ⟨⟨⟨⟨⟨h1, h2⟩, hp⟩, h3⟩, h4⟩, -⟩ := hr
    exact ⟨⟨⟨⟨⟨h1, h2⟩, hp⟩, h3⟩, h4⟩, ht⟩
  · exact hr

theorem remarksEdit_clean {h : List PredictionRecord} {i t : Str}
    (hh : historyClean h = true) (ht : strClean t = true) :
    historyClean (handleRemarksEdit h i t).1 = true := by
  have he : (handleRemarksEdit h i t).1 = h.map (fun r =>
      if r.id == i then
        (⟨r.id, r.material, r.params, r.prediction, r.timestamp, some t⟩ : PredictionRecord)
      else r) := rfl
  rw [he]
  simp only [historyClean, List.all_eq_true] at hh ⊢
  intro r hr
  obtain ⟨r0, hr0, rfl⟩ := List.mem_map.mp hr
  exact recordClean_setRemark (hh r0 hr0) ht

theorem delete_clean {h : List PredictionRecord} {i : Str}
    (hh : historyClean h = true) :
    historyClean (handleDeleteRecord h i).1 = true := by
  have he : (handleDeleteRecord h i).1 = h.filter (fun r => r.id != i) := rfl
  rw [he]
  simp only [historyClean, List.all_eq_true] at hh ⊢
  intro r hr
  exact hh r (List.mem_filter.mp hr).1

theorem replayStore_clean : ∀ (ops : List StoreOp) (h0 : List PredictionRecord),
    historyClean h0 = true → opsClean ops = true →
    historyClean (replayStore h0 ops) = true := by
  intro ops
  induction ops with
  | nil => intro h0 hh _; exact hh
  | cons op ops ih =>
    intro h0 hh ho
    simp only [opsClean, List.all_cons, Bool.and_eq_true] at ho
    have hstep : historyClean (applyStoreOp h0 op) = true := by
      cases op with
      | append r =>
        simp only [historyClean, applyStoreOp, List.all_cons, Bool.and_eq_true]
        exact ⟨ho.1, hh⟩
      | setRemark i t => exact remarksEdit_clean hh ho.1
      | delete i => exact delete_clean hh
    exact ih (applyStoreOp h0 op) hstep (by simp [opsClean, ho.2])

/-! ## Lemmas: the governing remark text -/

theorem lastRemark_inv (i : Str) : ∀ (ops : List StoreOp)
    (h0 : List PredictionRecord) (acc : Option Str),
    (∀ t, acc = some t → ∀ r ∈ h0, r.id = i → r.remarks = some t) →
    ∀ t, ops.foldl (lastRemarkStep i) acc = some t →
    ∀ r ∈ ops.foldl applyStoreOp h0, r.id = i → r.remarks = some t := by
  intro ops
  induction ops with
  | nil => intro h0 acc hinv t hacc; exact hinv t hacc
  | cons op ops ih =>
    intro h0 acc hinv t hacc r hr hid
    refine ih (applyStoreOp h0 op) (lastRemarkStep i acc op) ?_ t hacc r hr hid
    intro t' hacc' r' hr' hid'
    cases op with
    | append r0 =>
      rw [lastRemarkStep] at hacc'
      by_cases h0id : r0.id = i
      · rw [if_pos h0id] at hacc'
        exact absurd hacc' (by simp)
      · rw [if_neg h0id] at hacc'
        rcases List.mem_cons.mp hr' with rfl | hmem
        · exact absurd hid' h0id
        · exact hinv t' hacc' r' hmem hid'
    | setRemark j t0 =>
      rw [lastRemarkStep] at hacc'
      obtain ⟨r0, hr0, hfr⟩ := List.mem_map.mp (show r' ∈ h0.map (fun r =>
        if r.id == j then
          (⟨r.id, r.material, r.params, r.prediction, r.timestamp, some t0⟩ :
            PredictionRecord)
        else r) from hr')
      by_cases hb : r0.id = j
      · have hbe : (r0.id == j) = true := beq_iff_eq.mpr hb
        rw [if_pos hbe] at hfr
        by_cases hji : j = i
        · rw [if_pos hji] at hacc'
          rw [← hfr]
          rw [show t' = t0 from (Option.some_injective _ hacc').symm]
        · rw [← hfr] at hid'
          exact absurd (hb.symm.trans hid') hji
      · have hbe : (r0.id == j) = false := beq_eq_false_iff_ne.mpr hb
        rw [if_neg (by simp [hbe])] at hfr
        by_cases hji : j = i
        · rw [← hfr] at hid'
          exact absurd (hid'.trans hji.symm) hb
        · rw [if_neg hji] at hacc'
          rw [← hfr]
          exact hinv t' hacc' r0 hr0 (by rw [hfr]; exact hid')
    | delete j =>
      rw [lastRemarkStep] at hacc'
      have hmf := List.mem_filter.mp (show r' ∈ h0.filter (fun x => x.id != j) from hr')
      exact hinv t' hacc' r' hmf.1 hid'

/-! ## Lemmas: record identifiers under session events -/

theorem recordIds_remark (h : List PredictionRecord) (i t : Str) :
    recordIds ((handleRemarksEdit h i t).1) = recordIds h := by
  show (h.map (fun r =>
      if r.id == i then
        (⟨r.id, r.material, r.params, r.prediction, r.timestamp, some t⟩ :
          PredictionRecord)
      else r)).map (fun r => r.id) = h.map (fun r => r.id)
  rw [List.map_map]
  refine List.map_congr_left ?_
  intro r _
  by_cases hid : r.id == i
  · simp only [Function.comp_apply, if_pos hid]
  · simp only [Function.comp_apply, if_neg hid]

theorem recordIds_delete_sublist (h : List PredictionRecord) (i : Str) :
    List.Sublist (recordIds ((handleDeleteRecord h i).1)) (recordIds h) := by
  show List.Sublist ((h.filter (fun r => r.id != i)).map (fun r => r.id))
    (h.map (fun r => r.id))
  exact List.Sublist.map _ (List.filter_sublist h)

theorem replaySession_nodup : ∀ (evs : List SessionEv) (h0 : List PredictionRecord),
    (recordIds h0).Nodup →
    (submitTimes evs).Pairwise (fun a b => a < b) →
    (∀ n ∈ submitTimes evs, natToChars n ∉ recordIds h0) →
    (recordIds (replaySession h0 evs)).Nodup := by
  intro evs
  induction evs with
  | nil => intro h0 hn _ _; exact hn
  | cons ev evs ih =>
    intro h0 hn hp hf
    cases ev with
    | submit now m p label =>
      have hst : submitTimes (SessionEv.submit now m p label :: evs) =
          now :: submitTimes evs := rfl
      rw [hst] at hp hf
      refine ih (mkRecord m p label now :: h0) ?_ hp.of_cons ?_
      · refine List.nodup_cons.mpr ⟨?_, hn⟩
        exact hf now (List.mem_cons_self ..)
      · intro n hnn hmem
        rcases List.mem_cons.mp hmem with he | he
        · have hEq : n = now := natToChars_inj he
          have hlt : now < n := (List.pairwise_cons.mp hp).1 n hnn
          omega
        · exact hf n (List.mem_cons_of_mem _ hnn) he
    | remark i t =>
      refine ih ((handleRemarksEdit h0 i t).1) ?_ hp ?_
      · rw [recordIds_remark]; exact hn
      · intro n hnn
        rw [recordIds_remark]
        exact hf n hnn
    | removeRec i =>
      refine ih ((handleDeleteRecord h0 i).1) ?_ hp ?_
      · exact hn.sublist (recordIds_delete_sublist h0 i)
      · intro n hnn hmem
        exact hf n hnn ((recordIds_delete_sublist h0 i).subset hmem)

theorem createdIds_mono {evs : List SessionEv}
    (hp : (submitTimes evs).Pairwise (fun a b => a < b)) :
    ((submitTimes evs).map natToChars).Pairwise
      (fun a b => charsToNat a < charsToNat b) := by
  rw [List.pairwise_map]
  refine hp.imp ?_
  intro a b hab
  rw [charsToNat_natToChars, charsToNat_natToChars]
  exact hab

/-! ## The validator's check order, as the specification words it -/

/-- The validator of §4.1, written as the spec's order of checks: the four
required fields in declaration order, then the five numeric fields in
order, a numeric field failing when it is `<= 0` or `NaN` (the source has
no finiteness check: `Infinity` passes). -/
def specValidate (p : PredictionParams) : Option Str :=
  if p.substrateType.isEmpty then some fSubstrateType
  else if p.pressureType.isEmpty then some fPressureType
  else if p.substratePosition.isEmpty then some fSubstratePosition
  else if p.saltAddition.isEmpty then some fSaltAddition
  else if p.metalChalcogenRatio.jsLeZero || p.metalChalcogenRatio.jsIsNaN then
    some fMetalChalcogenRatio
  else if p.hArRatio.jsLeZero || p.hArRatio.jsIsNaN then some fHArRatio
  else if p.metalTemperature.jsLeZero || p.metalTemperature.jsIsNaN then
    some fMetalTemperature
  else if p.chalcogenTemperature.jsLeZero || p.chalcogenTemperature.jsIsNaN then
    some fChalcogenTemperature
  else if p.reactionTime.jsLeZero || p.reactionTime.jsIsNaN then some fReactionTime
  else none

theorem validateForm_eq_spec (p : PredictionParams) :
    validateForm p = specValidate p := by
  rw [validateForm, specValidate, requiredFields, numericFields]
  simp only [List.find?]
  cases hb1 : p.substrateType.isEmpty <;>
    cases hb2 : p.pressureType.isEmpty <;>
      cases hb3 : p.substratePosition.isEmpty <;>
        cases hb4 : p.saltAddition.isEmpty <;>
          cases hb5 : (p.metalChalcogenRatio.jsLeZero || p.metalChalcogenRatio.jsIsNaN) <;>
            cases hb6 : (p.hArRatio.jsLeZero || p.hArRatio.jsIsNaN) <;>
              cases hb7 : (p.metalTemperature.jsLeZero || p.metalTemperature.jsIsNaN) <;>
                cases hb8 : (p.chalcogenTemperature.jsLeZero ||
                    p.chalcogenTemperature.jsIsNaN) <;>
                  cases hb9 : (p.reactionTime.jsLeZero || p.reactionTime.jsIsNaN) <;>
                    simp [hb1, hb2, hb3, hb4, hb5, hb6, hb7, hb8, hb9]

/-! ## Sample values (for the concrete instances below) -/

/-- A form submission that passes validation. -/
def pValid : PredictionParams :=
  ⟨chars "SiO2", JSNum.finite 1 0, JSNum.finite 1 0, chars "atmospheric",
   JSNum.finite 800 0, JSNum.finite 200 0, chars "top", JSNum.finite 30 0,
   chars "yes"⟩

/-- A form submission with an empty required field. -/
def pMissing : PredictionParams :=
  ⟨[], JSNum.finite 1 0, JSNum.finite 1 0, chars "atmospheric",
   JSNum.finite 800 0, JSNum.finite 200 0, chars "top", JSNum.finite 30 0,
   chars "yes"⟩

/-- A form submission whose H2/Ar ratio is `Infinity`. -/
def pInf : PredictionParams :=
  ⟨chars "SiO2", JSNum.finite 1 0, JSNum.posInf, chars "atmospheric",
   JSNum.finite 800 0, JSNum.finite 200 0, chars "top", JSNum.finite 30 0,
   chars "yes"⟩

/-- A clean stored record. -/
def sampleRec : PredictionRecord :=
  ⟨chars "100", mMos2, pValid, labelExcellent, chars "100", none⟩

/-- A record with a `';'` in a string field. -/
def rSemi : PredictionRecord :=
  ⟨chars "1", chars "a;b", pValid, chars "ok", chars "1", none⟩

/-- A 25-record filtered history. -/
def fh25 : List PredictionRecord := List.replicate 25 sampleRec

/-! ## The claims -/

/-- C1 (amended to the fallback variant): when a valid submission's fetch
fails — non-success status or network error — the fallback orchestrator
creates exactly one new record whose label is the sampled one from the
three-label pool, prepends it to the history, writes the serialized
history durably, and fires only the normal (non-blocking) completion
toast. The first reference variant instead aborts (see the
counterexample). -/
theorem claim_C1 (history : List PredictionRecord) (selectedMaterial : Str)
    (formData : PredictionParams) (resp : FetchResult) (now : Nat) (rand : Fin 3)
    (hv : validateForm formData = none)
    (hr : resp = FetchResult.httpError ∨ resp = FetchResult.networkError) :
    handleSubmitV2 history selectedMaterial formData resp now rand =
      ⟨mkRecord selectedMaterial formData (simulatedLabel rand) now :: history,
       some (stringifyHistory
         (mkRecord selectedMaterial formData (simulatedLabel rand) now :: history)),
       some (simulatedLabel rand), [toastComplete (simulatedLabel rand)]⟩ ∧
    simulatedLabel rand ∈ predictionsPool ∧
    (toastComplete (simulatedLabel rand)).variant = ToastVariant.normal := by
  refine ⟨?_, ?_, rfl⟩
  · rcases hr with rfl | rfl <;>
      (rw [handleSubmitV2, hv]; intro l hl; exact FetchResult.noConfusion hl)
  · rcases rand with ⟨iv, hlt⟩
    interval_cases iv
    · exact List.mem_cons_self ..
    · exact List.mem_cons_of_mem _ (List.mem_cons_self ..)
    · exact List.mem_cons_of_mem _ (List.mem_cons_of_mem _ (List.mem_cons_self ..))

/-- C1 counterexample: the first reference variant creates no record on a
network error — the history and the durable slot are untouched and a
destructive (blocking) toast is fired, refuting the claim's universal
"creates exactly one new record". -/
theorem claim_C1_counterexample :
    handleSubmitV1 [] mMos2 pValid FetchResult.networkError 5 =
      ⟨[], none, none, [toastNetworkError]⟩ ∧
    toastNetworkError.variant = ToastVariant.destructive := ⟨rfl, rfl⟩

/-- C1 witness: a concrete degraded submission through the fallback
variant. -/
theorem claim_C1_witness :
    handleSubmitV2 [] mMos2 pValid FetchResult.httpError 5 (0 : Fin 3) =
      ⟨mkRecord mMos2 pValid (simulatedLabel (0 : Fin 3)) 5 :: [],
       some (stringifyHistory (mkRecord mMos2 pValid (simulatedLabel (0 : Fin 3)) 5 :: [])),
       some (simulatedLabel (0 : Fin 3)), [toastComplete (simulatedLabel (0 : Fin 3))]⟩ ∧
    simulatedLabel (0 : Fin 3) ∈ predictionsPool ∧
    (toastComplete (simulatedLabel (0 : Fin 3))).variant = ToastVariant.normal :=
  claim_C1 [] mMos2 pValid FetchResult.httpError 5 (0 : Fin 3) rfl (Or.inl rfl)

/-- C2 (amended): the validator checks the four required fields in
declaration order and then the five numeric fields in order,
short-circuiting at the first failure; a numeric field fails when it is
`<= 0` or `NaN` — there is no finiteness check, so `Infinity` passes (see
the counterexample). On failure both orchestrator variants create no
record, perform no write, and fire only the validation toast. -/
theorem claim_C2 (p : PredictionParams) :
    validateForm p = specValidate p ∧
    (∀ f, validateForm p = some f →
      ∀ (h : List PredictionRecord) (m : Str) (resp : FetchResult) (now : Nat)
        (rand : Fin 3),
        handleSubmitV1 h m p resp now = ⟨h, none, none, [validationToast f]⟩ ∧
        handleSubmitV2 h m p resp now rand = ⟨h, none, none, [validationToast f]⟩) := by
  refine ⟨validateForm_eq_spec p, ?_⟩
  intro f hf h m resp now rand
  constructor
  · rw [handleSubmitV1.eq_def, hf]
  · rw [handleSubmitV2.eq_def, hf]

/-- C2 counterexample: a form whose H2/Ar ratio is `Infinity` — not a
finite number — passes the validator, refuting the claim's "must be a
finite number". -/
theorem claim_C2_counterexample :
    pInf.hArRatio = JSNum.posInf ∧ JSNum.posInf.jsFinite = false ∧
    validateForm pInf = none := ⟨rfl, rfl, rfl⟩

/-- C2 witness: an empty substrate type is reported first and blocks both
variants. -/
theorem claim_C2_witness :
    validateForm pMissing = some fSubstrateType ∧
    handleSubmitV1 [] mMos2 pMissing FetchResult.httpError 0 =
      ⟨[], none, none, [validationToast fSubstrateType]⟩ :=
  ⟨rfl, ((claim_C2 pMissing).2 fSubstrateType rfl [] mMos2 FetchResult.httpError 0
    (0 : Fin 3)).1⟩

/-- C4: on a transport-level success both variants store the returned
label verbatim (whatever string it is) in exactly one new record carrying
the selected material, the submitted params snapshot, the time-derived
fresh id and timestamp, and no initial remark; the record is prepended
and the durable write serializes the new history. -/
theorem claim_C4 (history : List PredictionRecord) (selectedMaterial : Str)
    (formData : PredictionParams) (label : Str) (now : Nat) (rand : Fin 3)
    (hv : validateForm formData = none) :
    handleSubmitV1 history selectedMaterial formData (FetchResult.ok label) now =
      ⟨mkRecord selectedMaterial formData label now :: history,
       some (stringifyHistory (mkRecord selectedMaterial formData label now :: history)),
       some label, [toastComplete label]⟩ ∧
    handleSubmitV2 history selectedMaterial formData (FetchResult.ok label) now rand =
      ⟨mkRecord selectedMaterial formData label now :: history,
       some (stringifyHistory (mkRecord selectedMaterial formData label now :: history)),
       some label, [toastComplete label]⟩ ∧
    (mkRecord selectedMaterial formData label now).id = natToChars now ∧
    (mkRecord selectedMaterial formData label now).material = selectedMaterial ∧
    (mkRecord selectedMaterial formData label now).params = formData ∧
    (mkRecord selectedMaterial formData label now).prediction = label ∧
    (mkRecord selectedMaterial formData label now).remarks = none := by
  refine ⟨?_, ?_, rfl, rfl, rfl, rfl, rfl⟩
  · rw [handleSubmitV1, hv]
  · rw [handleSubmitV2, hv]

/-- C4 witness: a successful response with a label outside the known
three-value enum is stored verbatim. -/
theorem claim_C4_witness :
    handleSubmitV1 [] mMos2 pValid (FetchResult.ok (chars "weird")) 7 =
      ⟨mkRecord mMos2 pValid (chars "weird") 7 :: [],
       some (stringifyHistory (mkRecord mMos2 pValid (chars "weird") 7 :: [])),
       some (chars "weird"), [toastComplete (chars "weird")]⟩ :=
  (claim_C4 [] mMos2 pValid (chars "weird") 7 (0 : Fin 3) rfl).1

/-- C5: the material map is a fixed four-entry lookup whose four UI
options resolve to exactly three distinct remote codes — `ws2` and `wse2`
collapse onto the same code, while `mos2` and `mose2` keep their own. -/
theorem claim_C5 :
    materialMap.length = 4 ∧
    apiMaterial mWs2 = codeWSe2 ∧ apiMaterial mWse2 = codeWSe2 ∧
    apiMaterial mMos2 = codeMoS2 ∧ apiMaterial mMose2 = codeMoSe2 ∧
    codeWSe2 ≠ codeMoS2 ∧ codeWSe2 ≠ codeMoSe2 ∧ codeMoS2 ≠ codeMoSe2 := by
  decide

/-- C3 (amended): for histories and operation inputs that are safe for
the unencoded cookie slot — no `';'` in any string field and all numeric
fields finite — the store contents after any sequence of
append/setRemark/delete operations survive the cookie write, parse back,
and decode to exactly the same records (same identifiers, same immutable
fields, same remarks); and every surviving record's remark reflects the
latest governing `setRemark` for its identifier. Without the cleanliness
restriction the law fails (see the counterexample). -/
theorem claim_C3 (h0 : List PredictionRecord) (ops : List StoreOp)
    (hh : historyClean h0 = true) (ho : opsClean ops = true) :
    loadHistory (some (cookieStoredValue (stringifyHistory (replayStore h0 ops)))) =
      (LoadOutcome.stored (historyToJson (replayStore h0 ops)), false) ∧
    fromJsonHistory (historyToJson (replayStore h0 ops)) = some (replayStore h0 ops) ∧
    (∀ i t, lastRemark ops i = some t →
      ∀ r ∈ replayStore h0 ops, r.id = i → r.remarks = some t) := by
  have hcl := replayStore_clean ops h0 hh ho
  refine ⟨loadHistory_clean hcl, fromJsonHistory_roundtrip _ hcl, ?_⟩
  intro i t hlr r hr hid
  refine lastRemark_inv i ops h0 none ?_ t hlr r hr hid
  intro t' ht'
  exact absurd ht' (by simp)

/-- C3 counterexample: a `';'` inside a record's string field truncates
the stored cookie value mid-serialization, so the reload parses nothing
and falls back to the empty history — the stored record's identifier is
lost, refuting the unrestricted round-trip law. -/
theorem claim_C3_counterexample :
    recordIds (replayStore [] [StoreOp.append rSemi]) = [chars "1"] ∧
    loadHistory (some (cookieStoredValue (stringifyHistory
      (replayStore [] [StoreOp.append rSemi])))) = (LoadOutcome.initial, true) :=
  ⟨rfl, rfl⟩

/-- C3 witness: a clean one-append session round-trips. -/
theorem claim_C3_witness :
    loadHistory (some (cookieStoredValue (stringifyHistory
        (replayStore [] [StoreOp.append sampleRec])))) =
      (LoadOutcome.stored (historyToJson (replayStore [] [StoreOp.append sampleRec])),
       false) ∧
    fromJsonHistory (historyToJson (replayStore [] [StoreOp.append sampleRec])) =
      some (replayStore [] [StoreOp.append sampleRec]) :=
  ⟨(claim_C3 [] [StoreOp.append sampleRec] rfl (by decide)).1,
   (claim_C3 [] [StoreOp.append sampleRec] rfl (by decide)).2.1⟩

/-- C6 (amended): the load effect is a total function — an absent slot
yields the initial empty history; a present value that throws in
`JSON.parse` is caught, logged, and yields the initial empty history; but
a present value that parses is installed verbatim with no structural
validation, even when it is not a record array (see the counterexample,
which refutes the claim's "fails to parse as the expected structure ...
returns an empty collection"). -/
theorem claim_C6 :
    loadHistory none = (LoadOutcome.initial, false) ∧
    (∀ s, getCookieVal (some s) = some s → jsonParse s = none →
      loadHistory (some s) = (LoadOutcome.initial, true)) ∧
    (∀ s j, getCookieVal (some s) = some s → jsonParse s = some j →
      loadHistory (some s) = (LoadOutcome.stored j, false)) := by
  refine ⟨rfl, ?_, ?_⟩
  · intro s hg hp
    show (match getCookieVal (some s) with
          | none => (LoadOutcome.initial, false)
          | some s2 =>
            match jsonParse s2 with
            | some j => (LoadOutcome.stored j, false)
            | none => (LoadOutcome.initial, true)) = (LoadOutcome.initial, true)
    rw [hg]
    show (match jsonParse s with
          | some j => (LoadOutcome.stored j, false)
          | none => (LoadOutcome.initial, true)) = (LoadOutcome.initial, true)
    rw [hp]
  · intro s j hg hp
    show (match getCookieVal (some s) with
          | none => (LoadOutcome.initial, false)
          | some s2 =>
            match jsonParse s2 with
            | some j2 => (LoadOutcome.stored j2, false)
            | none => (LoadOutcome.initial, true)) = (LoadOutcome.stored j, false)
    rw [hg]
    show (match jsonParse s with
          | some j2 => (LoadOutcome.stored j2, false)
          | none => (LoadOutcome.initial, true)) = (LoadOutcome.stored j, false)
    rw [hp]

/-- C6 counterexample: the slot content `42` is valid JSON but not the
expected structure; the load effect installs the number verbatim instead
of returning an empty collection, and the value does not decode as a
record list. -/
theorem claim_C6_counterexample :
    jsonParse (chars "42") = some (Json.num 42 0) ∧
    loadHistory (some (chars "42")) = (LoadOutcome.stored (Json.num 42 0), false) ∧
    fromJsonHistory (Json.num 42 0) = none := ⟨rfl, rfl, rfl⟩

/-- C6 witness: a parse failure is caught and logged, yielding the
initial history. -/
theorem claim_C6_witness :
    loadHistory (some (chars "!!")) = (LoadOutcome.initial, true) :=
  claim_C6.2.1 (chars "!!") rfl rfl

/-- C7: deleting by identifier keeps exactly the records with a different
identifier, each unchanged, in their original relative order; an absent
identifier leaves the collection untouched; and the whole result is
serialized for the durable write, with the success toast fired. -/
theorem claim_C7 (h : List PredictionRecord) (i : Str) :
    List.Sublist (handleDeleteRecord h i).1 h ∧
    (∀ r ∈ h, r.id ≠ i → r ∈ (handleDeleteRecord h i).1) ∧
    (∀ r ∈ (handleDeleteRecord h i).1, r ∈ h ∧ r.id ≠ i) ∧
    ((∀ r ∈ h, r.id ≠ i) → (handleDeleteRecord h i).1 = h) ∧
    (handleDeleteRecord h i).2.1 = stringifyHistory (handleDeleteRecord h i).1 ∧
    (handleDeleteRecord h i).2.2 = toastDeleted := by
  have he : (handleDeleteRecord h i).1 = h.filter (fun r => r.id != i) := rfl
  refine ⟨?_, ?_, ?_, ?_, rfl, rfl⟩
  · rw [he]
    exact List.filter_sublist h
  · intro r hr hne
    rw [he]
    exact List.mem_filter.mpr ⟨hr, by simpa using hne⟩
  · intro r hr
    rw [he] at hr
    have hm := List.mem_filter.mp hr
    exact ⟨hm.1, by simpa using hm.2⟩
  · intro hall
    rw [he, List.filter_eq_self]
    intro r hr
    simpa using hall r hr

/-- C7 witness: deleting an absent identifier from a one-record history
is a no-op. -/
theorem claim_C7_witness :
    (handleDeleteRecord [sampleRec] (chars "zz")).1 = [sampleRec] :=
  (claim_C7 [sampleRec] (chars "zz")).2.2.2.1 (by decide)

/-- C8: the page count is the ceiling of the filtered length over the
page size 10; the 1-based page `p` shows the filtered records from index
`(p-1)*10`, ten per page; every page between 1 and the page count has
content; a 25-record history gives pages 1–10, 21–25 and a count of 3;
and the two navigation controls clamp the page index to at least 1 and at
most the page count. -/
theorem claim_C8 (fh : List PredictionRecord) (p tp : Nat) :
    (fh.length ≤ recordsPerPage * totalPages fh ∧
     recordsPerPage * totalPages fh < fh.length + recordsPerPage) ∧
    ((currentRecords fh p).length =
      min recordsPerPage (fh.length - (p - 1) * recordsPerPage)) ∧
    (∀ k, k < recordsPerPage →
      (currentRecords fh p)[k]? = fh[(p - 1) * recordsPerPage + k]?) ∧
    (1 ≤ p → p ≤ totalPages fh → currentRecords fh p ≠ []) ∧
    (fh.length = 25 → totalPages fh = 3 ∧ currentRecords fh 1 = fh.take 10 ∧
      currentRecords fh 3 = fh.drop 20 ∧ (currentRecords fh 3).length = 5) ∧
    1 ≤ prevPageClick p ∧ (1 ≤ p → prevPageClick p ≤ p) ∧
    nextPageClick tp p ≤ tp ∧ (1 ≤ tp → 1 ≤ nextPageClick tp p) := by
  refine ⟨⟨?_, ?_⟩, ?_, ?_, ?_, ?_, ?_, ?_, ?_, ?_⟩
  · simp only [totalPages, recordsPerPage]
    omega
  · simp only [totalPages, recordsPerPage]
    omega
  · rw [currentRecords]
    simp only [List.length_take, List.length_drop]
  · intro k hk
    rw [currentRecords, List.getElem?_take, if_pos hk, List.getElem?_drop]
  · intro hp1 hp2
    have hlen : 0 < (currentRecords fh p).length := by
      rw [currentRecords]
      simp only [List.length_take, List.length_drop]
      have h2' : p ≤ (fh.length + recordsPerPage - 1) / recordsPerPage := hp2
      simp only [recordsPerPage] at h2' ⊢
      omega
    exact List.length_pos.mp hlen
  · intro h25
    refine ⟨?_, ?_, ?_, ?_⟩
    · rw [totalPages, recordsPerPage, h25]
    · rw [currentRecords]
      simp [recordsPerPage]
    · rw [currentRecords]
      refine List.take_of_length_le ?_
      simp only [List.length_drop, h25, recordsPerPage]
      omega
    · simp only [currentRecords, List.length_take, List.length_drop, h25,
        recordsPerPage]
      omega
  · simp [prevPageClick]
  · intro hp1
    simp only [prevPageClick]
    omega
  · simp only [nextPageClick]
    omega
  · intro ht1
    simp only [nextPageClick]
    omega

/-- C8 witness: the 25-record instance. -/
theorem claim_C8_witness :
    totalPages fh25 = 3 ∧ currentRecords fh25 1 = fh25.take 10 ∧
    currentRecords fh25 3 = fh25.drop 20 ∧ (currentRecords fh25 3).length = 5 ∧
    currentRecords fh25 3 ≠ [] :=
  ⟨((claim_C8 fh25 3 3).2.2.2.2.1 rfl).1,
   ((claim_C8 fh25 3 3).2.2.2.2.1 rfl).2.1,
   ((claim_C8 fh25 3 3).2.2.2.2.1 rfl).2.2.1,
   ((claim_C8 fh25 3 3).2.2.2.2.1 rfl).2.2.2,
   (claim_C8 fh25 3 3).2.2.2.1 (by decide) (by decide)⟩

/-- C9 (amended): record identifiers are `Date.now().toString()`, so they
are unique only for submissions at strictly increasing clock readings
whose ids do not already occur in the loaded history — under those
conditions every reachable state (any mix of submits, remark edits and
deletions) has pairwise distinct identifiers, and the session's created
ids decode back to the strictly increasing creation times. Two submits in
the same millisecond give duplicate ids (see the counterexample). -/
theorem claim_C9 (h0 : List PredictionRecord) (evs : List SessionEv)
    (hn : (recordIds h0).Nodup)
    (hp : (submitTimes evs).Pairwise (fun a b => a < b))
    (hf : ∀ n ∈ submitTimes evs, natToChars n ∉ recordIds h0) :
    (recordIds (replaySession h0 evs)).Nodup ∧
    ((submitTimes evs).map natToChars).Pairwise
      (fun a b => charsToNat a < charsToNat b) :=
  ⟨replaySession_nodup evs h0 hn hp hf, createdIds_mono hp⟩

/-- C9 counterexample: two submissions with the same `Date.now()` reading
produce two records with the same identifier, refuting unconditional
uniqueness. -/
theorem claim_C9_counterexample :
    ¬ (recordIds (replaySession []
        [SessionEv.submit 7 mMos2 pValid labelExcellent,
         SessionEv.submit 7 mMos2 pValid labelExcellent])).Nodup := by
  decide

/-- C9 witness: two submits at increasing times from an empty history. -/
theorem claim_C9_witness :
    (recordIds (replaySession []
        [SessionEv.submit 1 mMos2 pValid labelExcellent,
         SessionEv.submit 2 mMos2 pValid labelExcellent])).Nodup :=
  (claim_C9 []
    [SessionEv.submit 1 mMos2 pValid labelExcellent,
     SessionEv.submit 2 mMos2 pValid labelExcellent]
    (by decide) (by decide) (by decide)).1

/-- C10: deleting an identifier that is absent from the history leaves
the collection unchanged, yet still hands the full serialization to the
durable write and fires the normal-styled "Record Deleted" success
toast. -/
theorem claim_C10 (h : List PredictionRecord) (i : Str)
    (habs : ∀ r ∈ h, r.id ≠ i) :
    handleDeleteRecord h i = (h, stringifyHistory h, toastDeleted) ∧
    toastDeleted.variant = ToastVariant.normal ∧
    toastDeleted.title = chars "Record Deleted" := by
  have he : h.filter (fun r => r.id != i) = h := by
    rw [List.filter_eq_self]
    intro r hr
    simpa using habs r hr
  refine ⟨?_, rfl, rfl⟩
  rw [handleDeleteRecord, he]

/-- C10 witness: deleting an absent id from a one-record history. -/
theorem claim_C10_witness :
    handleDeleteRecord [sampleRec] (chars "zz") =
      ([sampleRec], stringifyHistory [sampleRec], toastDeleted) :=
  (claim_C10 [sampleRec] (chars "zz") (by decide)).1

end CVD
